import Mathlib

/-!
Verification of the Covalent workflow dispatch engine specification.

The repository ships the user-facing documentation (how-to notebooks for
cancellation, wait-only edges and redispatch), the CI configuration and the
web dashboard; the dispatch engine itself is not among the visible files.
Following the specification, the engine (transport graph, scheduler,
cancellation controller, result aggregator, redispatch engine) is modelled
here from the spec's own words, and the documented runs in the notebooks are
replayed against the model.  The dashboard's `filterGraph` helper is embedded
directly from `covalent_ui/webapp/src/components/dashboard/Dashboard.js`.
-/

namespace Covalent

/-- Modelled from the spec: per-node status state machine of section 3
(`PENDING -> RUNNING -> COMPLETED | FAILED`, plus `CANCELLED`). -/
inductive Status where
  | pending
  | running
  | completed
  | failed
  | cancelled
deriving DecidableEq, Repr

/-- Modelled from the spec: dispatch-level status of section 3
(`CREATED -> RUNNING -> COMPLETED | FAILED | CANCELLED`). -/
inductive DispStatus where
  | created
  | running
  | completed
  | failed
  | cancelled
deriving DecidableEq, Repr

/-- Modelled from the spec: edge kinds of section 3 — `positional-arg(index)`,
`keyword-arg(name)`, or `wait-only` (ordering-only, carries no value). -/
inductive EdgeKind where
  | posArg (index : Nat)
  | kwArg (name : String)
  | waitOnly
deriving DecidableEq, Repr

/-- Modelled from the spec: a directed edge of the transport graph. -/
structure Edge where
  src : Nat
  dst : Nat
  kind : EdgeKind
deriving DecidableEq, Repr

/-- Modelled from the spec: a graph node (section 3).  `task = none` marks a
parameter node holding the literal `param`; `task = some r` is a reference to
a callable task definition; `executor` is the capability descriptor. -/
structure Node where
  id : Nat
  name : String
  task : Option Nat
  param : Option Int
  executor : String
deriving DecidableEq, Repr

/-- Modelled from the spec: the transport graph container (section 4.1). -/
structure Graph where
  nodes : List Node
  edges : List Edge
deriving DecidableEq, Repr

/-- The node ids present in a graph. -/
def Graph.ids (g : Graph) : List Nat :=
  g.nodes.map (fun n => n.id)

/-- Runtime state of one node: its status and its computed output slot. -/
structure NodeState where
  status : Status
  out : Option Int
deriving DecidableEq, Repr

/-- Modelled from the spec: the mutable runtime state a Dispatch owns — a
per-node status/output table plus the cancellation flag set by the
Cancellation Controller (sections 3 and 4.3). -/
structure DState where
  node : Nat → NodeState
  cancel : Bool

/-- Modelled from the spec: the Executor contract (section 6) — a task
reference applied to resolved positional and keyword arguments yields an
output, or `none` for a reported failure. -/
def Env : Type :=
  Nat → List Int → List (String × Int) → Option Int

/-- Incoming edges of a node (value-dependency and wait-only alike). -/
def predEdges (g : Graph) (i : Nat) : List Edge :=
  g.edges.filter (fun e => decide (e.dst = i))

/-- Modelled from the spec: `is_runnable` readiness check of section 4.1 —
every predecessor connected by a value-dependency or wait-only edge must be
`COMPLETED`. -/
def allPredsCompleted (g : Graph) (st : DState) (i : Nat) : Bool :=
  (predEdges g i).all (fun e => decide ((st.node e.src).status = Status.completed))

/-- Modelled from the spec: a node is unreachable when some required
predecessor has failed or was cancelled (section 4.2 step 4). -/
def deadPred (g : Graph) (st : DState) (i : Nat) : Bool :=
  (predEdges g i).any (fun e =>
    decide ((st.node e.src).status = Status.failed) ||
    decide ((st.node e.src).status = Status.cancelled))

/-- The unique positional-argument edge of index `j` targeting node `i`. -/
def posEdgeAt (g : Graph) (i j : Nat) : Option Edge :=
  g.edges.find? (fun e => decide (e.dst = i) && decide (e.kind = EdgeKind.posArg j))

/-- Whether an edge kind is a positional-argument dependency. -/
def isPosKind : EdgeKind → Bool
  | EdgeKind.posArg _ => true
  | _ => false

/-- Whether an edge kind is a keyword-argument dependency. -/
def isKwKind : EdgeKind → Bool
  | EdgeKind.kwArg _ => true
  | _ => false

/-- Number of positional-argument edges targeting node `i`. -/
def posCount (g : Graph) (i : Nat) : Nat :=
  (g.edges.filter (fun e => decide (e.dst = i) && isPosKind e.kind)).length

/-- Value fed by the positional argument of index `j` of node `i`, read from
the source node's output slot. -/
def argAt (g : Graph) (st : DState) (i j : Nat) : Int :=
  match posEdgeAt g i j with
  | some e => ((st.node e.src).out).getD 0
  | none => 0

/-- Modelled from the spec: resolution of a node's positional inputs by
reading the `COMPLETED` outputs of its value-dependency predecessors in
positional order; wait-only predecessors contribute no value
(section 4.2 step 3). -/
def resolveArgs (g : Graph) (st : DState) (i : Nat) : List Int :=
  (List.range (posCount g i)).map (fun j => argAt g st i j)

/-- The keyword-argument edges targeting node `i`. -/
def kwEdges (g : Graph) (i : Nat) : List Edge :=
  g.edges.filter (fun e => decide (e.dst = i) && isKwKind e.kind)

/-- Name carried by a keyword-argument edge kind. -/
def kwName : EdgeKind → String
  | EdgeKind.kwArg s => s
  | _ => ""

/-- Modelled from the spec: resolution of a node's keyword inputs
(section 4.2 step 3). -/
def resolveKw (g : Graph) (st : DState) (i : Nat) : List (String × Int) :=
  (kwEdges g i).map (fun e => (kwName e.kind, ((st.node e.src).out).getD 0))

/-- The value a node produces when it runs in state `st`: the literal of a
parameter node, or the executor's answer on the resolved inputs. -/
def nodeEval (g : Graph) (env : Env) (st : DState) (n : Node) : Option Int :=
  match n.task with
  | none => n.param
  | some ref => env ref (resolveArgs g st n.id) (resolveKw g st n.id)

/-- Modelled from the spec: the submission half of one scheduling round
(section 4.2 steps 2 and 3, section 4.3).  A `PENDING` node is cancelled when
the dispatch cancellation flag is set, cancelled when a required ancestor
failed or was cancelled, marked `RUNNING` when every predecessor is
`COMPLETED`, and left `PENDING` otherwise. -/
def stepSubmit (g : Graph) (st : DState) (i : Nat) : NodeState :=
  let cur := st.node i
  match cur.status with
  | Status.pending =>
      if st.cancel then { cur with status := Status.cancelled }
      else if deadPred g st i then { cur with status := Status.cancelled }
      else if allPredsCompleted g st i then { cur with status := Status.running }
      else cur
  | _ => cur

/-- Modelled from the spec: the completion half of one scheduling round
(section 4.2 step 4, section 4.3).  A `RUNNING` node is cancelled when the
flag is set and its executor honors cancellation; otherwise it finishes:
a parameter node completes with its literal, a task node completes with the
executor's output or fails when the executor reports failure. -/
def stepResolve (g : Graph) (env : Env) (honors : String → Bool)
    (st : DState) (n : Node) : NodeState :=
  let cur := st.node n.id
  match cur.status with
  | Status.running =>
      if st.cancel && honors n.executor then { cur with status := Status.cancelled }
      else
        match n.task with
        | none => { status := Status.completed, out := n.param }
        | some ref =>
            match env ref (resolveArgs g st n.id) (resolveKw g st n.id) with
            | some v => { status := Status.completed, out := some v }
            | none => { cur with status := Status.failed }
  | _ => cur

/-- Applies `stepSubmit` to every node of the graph, pointwise by node id. -/
def submitPhase (g : Graph) (st : DState) : DState :=
  { cancel := st.cancel,
    node := fun i => if i ∈ g.ids then stepSubmit g st i else st.node i }

/-- Applies `stepResolve` to every node of the graph, pointwise by node id. -/
def resolvePhase (g : Graph) (env : Env) (honors : String → Bool) (st : DState) : DState :=
  { cancel := st.cancel,
    node := fun i =>
      match g.nodes.find? (fun n => decide (n.id = i)) with
      | some n => stepResolve g env honors st n
      | none => st.node i }

/-- Modelled from the spec: one scheduling round of the event-driven loop of
section 4.2, collapsed synchronously — every newly eligible node is submitted,
then every in-flight node's completion event is consumed. -/
def round (g : Graph) (env : Env) (honors : String → Bool) (st : DState) : DState :=
  resolvePhase g env honors (submitPhase g st)

/-- Modelled from the spec: the Scheduler's `run` loop (section 4.2) driven
for `k` scheduling rounds. -/
def runRounds (g : Graph) (env : Env) (honors : String → Bool) : Nat → DState → DState
  | 0, st => st
  | k + 1, st => round g env honors (runRounds g env honors k st)

/-- A status from which a node never moves again. -/
def isTerminal : Status → Bool
  | Status.completed => true
  | Status.failed => true
  | Status.cancelled => true
  | _ => false

/-- Modelled from the spec: the derived dispatch status of section 3 —
`FAILED` as soon as any node fails (taking precedence per section 9),
`CANCELLED` once the cancellation request is acknowledged and all nodes are
terminal with none failed, `COMPLETED` when all nodes completed. -/
def overallStatus (g : Graph) (st : DState) : DispStatus :=
  if g.nodes.any (fun n => decide ((st.node n.id).status = Status.failed)) then
    DispStatus.failed
  else if g.nodes.all (fun n => isTerminal (st.node n.id).status) then
    (if g.nodes.all (fun n => decide ((st.node n.id).status = Status.completed)) && !st.cancel
     then DispStatus.completed
     else DispStatus.cancelled)
  else DispStatus.running

/-- Modelled from the spec: the set of node ids submitted to the Executor
interface in the round starting from `st` (section 4.2 step 3) — `PENDING`
task nodes that are eligible (no cancellation flag, no dead ancestor, all
predecessors completed). -/
def submitsIn (g : Graph) (st : DState) : List Nat :=
  (g.nodes.filter (fun n =>
    decide ((st.node n.id).status = Status.pending) && !st.cancel &&
    !deadPred g st n.id && allPredsCompleted g st n.id && n.task.isSome)).map
    (fun n => n.id)

/-- The fresh state of a newly created dispatch: every node `PENDING`, no
output recorded, cancellation flag clear. -/
def initState : DState :=
  { node := fun _ => { status := Status.pending, out := none }, cancel := false }

/-- Node ids are unique and every edge endpoint names a node. -/
def WellFormed (g : Graph) : Prop :=
  g.ids.Nodup ∧ ∀ e ∈ g.edges, e.src ∈ g.ids ∧ e.dst ∈ g.ids

/-- A height function witnessing acyclicity: strictly increasing along every
edge. -/
def HeightFn (g : Graph) (m : Nat → Nat) : Prop :=
  ∀ e ∈ g.edges, m e.src < m e.dst

/-- All node heights lie below the bound `b`. -/
def HeightBound (g : Graph) (m : Nat → Nat) (b : Nat) : Prop :=
  ∀ n ∈ g.nodes, m n.id < b

instance (g : Graph) : Decidable (WellFormed g) := by
  unfold WellFormed
  infer_instance

instance (g : Graph) (m : Nat → Nat) : Decidable (HeightFn g m) := by
  unfold HeightFn
  infer_instance

instance (g : Graph) (m : Nat → Nat) (b : Nat) : Decidable (HeightBound g m b) := by
  unfold HeightBound
  infer_instance

/-!
The documented scenario of `doc/source/how_to/coding/wait_for_another_electron.ipynb`:
`task_1(a) = a ** 2` applied to the literal 2, `task_2(x, y) = x * y` applied
to `task_1`'s output and the literal 3, `task_3(b) = b ** 3` applied to the
literal 5 with a wait-only edge from `task_1`, and the declared return
`task_2(res_2, res_3)`.  Node ids and names follow the notebook's printout. -/

/-- The transport graph traced from the notebook workflow. -/
def scenarioGraph : Graph :=
  { nodes :=
      [ { id := 0, name := "task_1", task := some 1, param := none, executor := "dask" },
        { id := 1, name := ":parameter:2", task := none, param := some 2, executor := "dask" },
        { id := 2, name := "task_2", task := some 2, param := none, executor := "dask" },
        { id := 3, name := ":parameter:3", task := none, param := some 3, executor := "dask" },
        { id := 4, name := "task_3", task := some 3, param := none, executor := "dask" },
        { id := 5, name := ":parameter:5", task := none, param := some 5, executor := "dask" },
        { id := 6, name := "task_2", task := some 2, param := none, executor := "dask" } ],
    edges :=
      [ { src := 1, dst := 0, kind := EdgeKind.posArg 0 },
        { src := 0, dst := 2, kind := EdgeKind.posArg 0 },
        { src := 3, dst := 2, kind := EdgeKind.posArg 1 },
        { src := 5, dst := 4, kind := EdgeKind.posArg 0 },
        { src := 0, dst := 4, kind := EdgeKind.waitOnly },
        { src := 2, dst := 6, kind := EdgeKind.posArg 0 },
        { src := 4, dst := 6, kind := EdgeKind.posArg 1 } ] }

/-- Task definitions of the notebook workflow: reference 1 squares, reference
2 multiplies, reference 3 cubes. -/
def scenarioEnv : Env := fun ref args _kw =>
  match ref, args with
  | 1, [a] => some (a * a)
  | 2, [x, y] => some (x * y)
  | 3, [b] => some (b * b * b)
  | _, _ => none

/-- The Dask executor does not honor cancellation of running tasks. -/
def scenarioHonors : String → Bool := fun _ => false

/-- Final state of the documented run after four scheduling rounds. -/
def scenarioFinal : DState :=
  runRounds scenarioGraph scenarioEnv scenarioHonors 4 initState

/-- The same graph with every wait-only edge removed; value-dependency edges
are untouched. -/
def dropWait (g : Graph) : Graph :=
  { nodes := g.nodes,
    edges := g.edges.filter (fun e => !decide (e.kind = EdgeKind.waitOnly)) }

/-- The value-dependency edges targeting node `i` (wait-only excluded). -/
def valuePredEdges (g : Graph) (i : Nat) : List Edge :=
  g.edges.filter (fun e => decide (e.dst = i) && !decide (e.kind = EdgeKind.waitOnly))

/-!
Redispatch engine (spec section 4.5): clone the base graph, swap the task
reference of name-matched task nodes, rebind the parameter nodes to the new
call's arguments, and — when reuse of previous results is requested — seed
every node whose task reference and resolved input values coincide with the
base run as `COMPLETED` with the base run's stored output.
-/

/-- Modelled from the spec: substitution step (section 4.5 item a) — a task
node whose name matches a key of `subs` has its task reference swapped before
any execution. -/
def substituteNode (subs : List (String × Nat)) (n : Node) : Node :=
  if n.task.isSome then
    match subs.find? (fun s => decide (s.1 = n.name)) with
    | some s => { n with task := some s.2 }
    | none => n
  else n

/-- Modelled from the spec: parameter rebinding (section 4.5 item b) — the
bound literal of each root parameter node is replaced by the new call's
argument for that node, the positional/keyword matching against the declared
signature having been resolved into the map `newArgs`. -/
def rebindNode (newArgs : Nat → Int) (n : Node) : Node :=
  if n.task.isSome then n else { n with param := some (newArgs n.id) }

/-- Modelled from the spec: the cloned graph handed to the new Dispatch —
structure verbatim, task references substituted, parameters rebound. -/
def redispatchGraph (base : Graph) (subs : List (String × Nat))
    (newArgs : Nat → Int) : Graph :=
  { nodes := base.nodes.map (fun n => rebindNode newArgs (substituteNode subs n)),
    edges := base.edges }

/-- Modelled from the spec: the reuse equivalence check of section 4.5 — a
node of the new graph is reusable iff its task reference and bound literal
agree with the base run's node, the base run recorded an output for it, and
every value-dependency predecessor is itself reusable (so the resolved input
values feeding it are exactly those recorded in the base run).  `fuel` bounds
the recursion depth through predecessors. -/
def reusableF (base : Graph) (bout : Nat → Option Int) (newG : Graph) :
    Nat → Nat → Bool
  | 0, _ => false
  | fuel + 1, i =>
      match base.nodes.find? (fun n => decide (n.id = i)),
            newG.nodes.find? (fun n => decide (n.id = i)) with
      | some bn, some nn =>
          decide (bn.task = nn.task) && decide (bn.param = nn.param) &&
          (bout i).isSome &&
          (valuePredEdges base i).all
            (fun e => reusableF base bout newG fuel e.src)
      | _, _ => false

/-- Modelled from the spec: the initial state of a redispatched Dispatch with
`reuse_previous_results = true` (section 4.5) — reusable nodes are pre-seeded
`COMPLETED` with the base run's stored output, every other node is forced
back to `PENDING`. -/
def seedState (base : Graph) (bout : Nat → Option Int) (newG : Graph)
    (fuel : Nat) : DState :=
  { cancel := false,
    node := fun i =>
      if reusableF base bout newG fuel i then
        { status := Status.completed, out := bout i }
      else { status := Status.pending, out := none } }

/-- Nodes of the new graph directly named by a substitution: task nodes whose
name matches the substituted name. -/
def matchedBy (subName : String) (n : Node) : Bool :=
  n.task.isSome && decide (n.name = subName)

/-- The substituted nodes together with their descendants along
value-dependency edges — the nodes whose resolved inputs can be affected by
the substitution. -/
inductive Affected (base : Graph) (subName : String) : Nat → Prop where
  | matched (n : Node) : n ∈ base.nodes → matchedBy subName n = true →
      Affected base subName n.id
  | step (e : Edge) : e ∈ base.edges → e.kind ≠ EdgeKind.waitOnly →
      Affected base subName e.src → Affected base subName e.dst

/-!
Result aggregator (spec sections 4.4, 6 and 7): per-dispatch record exposed by
`get_result`, and the dispatch-id-keyed registry it reads from.
-/

/-- Modelled from the spec: the record `get_result` returns (section 6) —
top-level status, final result value, per-node outputs, and the error summary
naming the failed nodes. -/
structure ResultRecord where
  status : DispStatus
  result : Option Int
  nodeOutputs : List (String × Option Int)
  error : List String
deriving DecidableEq, Repr

/-- Names of the nodes that ended `FAILED`, the error summary of section 6. -/
def failedNames (g : Graph) (st : DState) : List String :=
  (g.nodes.filter (fun n => decide ((st.node n.id).status = Status.failed))).map
    (fun n => n.name)

/-- One registered dispatch: its graph, executor environment, cancellation
capabilities, current state, a round budget sufficient to drain it, and the
id of the post-process node whose output is the declared result. -/
structure DispatchEntry where
  graph : Graph
  env : Env
  honors : String → Bool
  st : DState
  fuel : Nat
  postId : Nat

/-- Modelled from the spec: `get_result(dispatch_id, wait)` (sections 4.4 and
6).  An unknown dispatch id is the only failure; with `wait = true` the
blocking accessor drives the dispatch to its terminal status and returns the
status, result, per-node outputs and error summary together.  Node failures
are reported only through the `status` and `error` fields. -/
def getResult (reg : List (String × DispatchEntry)) (did : String)
    (wait : Bool) : Except String ResultRecord :=
  match reg.find? (fun p => decide (p.1 = did)) with
  | none => Except.error "dispatch id not found"
  | some p =>
      let e := p.2
      let final := if wait then runRounds e.graph e.env e.honors e.fuel e.st else e.st
      Except.ok
        { status := overallStatus e.graph final,
          result := (final.node e.postId).out,
          nodeOutputs := e.graph.nodes.map (fun n => (n.name, (final.node n.id).out)),
          error := failedNames e.graph final }

/-!
The dashboard's `filterGraph` helper, embedded from
`covalent_ui/webapp/src/components/dashboard/Dashboard.js` lines 85 to 90:
nodes are filtered by the predicate, the kept node ids are collected into a
set, and a link is kept exactly when its source id belongs to that set.
-/

/-- A node of the UI graph payload. -/
structure UiNode where
  id : Nat
  name : String
deriving DecidableEq, Repr

/-- A link of the UI graph payload. -/
structure UiLink where
  source : Nat
  target : Nat
deriving DecidableEq, Repr

/-- The UI graph payload: `{ nodes, links }`. -/
structure UiGraph where
  nodes : List UiNode
  links : List UiLink
deriving DecidableEq, Repr

/-- `filterGraph` from `Dashboard.js`: keep the nodes satisfying the
predicate and the links whose source id is among the kept nodes' ids. -/
def filterGraph (graph : UiGraph) (nodePredicate : UiNode → Bool) : UiGraph :=
  let nodes := graph.nodes.filter nodePredicate
  let nodeSet := nodes.map (fun n => n.id)
  let links := graph.links.filter (fun l => nodeSet.contains l.source)
  { nodes := nodes, links := links }

/-- Modelled from the spec: the per-node transitions the state machine of
section 3 allows — staying put, `PENDING -> RUNNING`,
`RUNNING -> COMPLETED`, `RUNNING -> FAILED`, `PENDING -> CANCELLED`, and
`RUNNING -> CANCELLED`. -/
def allowedPair (s t : Status) : Prop :=
  s = t ∨
  (s = Status.pending ∧ t = Status.running) ∨
  (s = Status.running ∧ t = Status.completed) ∨
  (s = Status.running ∧ t = Status.failed) ∨
  (s = Status.pending ∧ t = Status.cancelled) ∨
  (s = Status.running ∧ t = Status.cancelled)

/-!
Small fixtures used by the closed witnesses of the theorems below.
-/

/-- A three-node chain: a parameter node feeding a task node feeding a
second task node. -/
def chainGraph : Graph :=
  { nodes :=
      [ { id := 0, name := ":parameter:2", task := none, param := some 2, executor := "dask" },
        { id := 1, name := "mid", task := some 1, param := none, executor := "dask" },
        { id := 2, name := "last", task := some 2, param := none, executor := "dask" } ],
    edges :=
      [ { src := 0, dst := 1, kind := EdgeKind.posArg 0 },
        { src := 1, dst := 2, kind := EdgeKind.posArg 0 } ] }

/-- Task definitions for the chain: reference 1 adds one, reference 2
doubles, reference 9 always fails, everything else returns zero. -/
def chainEnv : Env := fun ref args _kw =>
  match ref, args with
  | 1, [a] => some (a + 1)
  | 2, [a] => some (a * 2)
  | 9, _ => none
  | _, _ => some 0

/-- The chain with the middle task swapped for the always-failing task. -/
def failChainGraph : Graph :=
  { nodes :=
      [ { id := 0, name := ":parameter:2", task := none, param := some 2, executor := "dask" },
        { id := 1, name := "mid", task := some 9, param := none, executor := "dask" },
        { id := 2, name := "last", task := some 2, param := none, executor := "dask" } ],
    edges := chainGraph.edges }

/-- Height function for the chain (and for `failChainGraph`). -/
def chainHeights : Nat → Nat := fun i => i

/-- Height function for `scenarioGraph`. -/
def scenarioHeights : Nat → Nat := fun i =>
  match i with
  | 0 => 1
  | 2 => 2
  | 4 => 2
  | 6 => 3
  | _ => 0

/-- A total executor environment over the scenario tasks: failures replaced
by a zero result. -/
def scenarioEnvTotal : Env := fun ref args kw =>
  some ((scenarioEnv ref args kw).getD 0)

/-- A dispatch state with every node pending and the cancellation flag set. -/
def cancelledPendingState : DState :=
  { node := fun _ => { status := Status.pending, out := none }, cancel := true }

/-- A dispatch state in which node 1 failed, the other chain nodes
completed, and cancellation was acknowledged. -/
def failedCancelState : DState :=
  { node := fun i =>
      if i = 1 then { status := Status.failed, out := none }
      else { status := Status.completed, out := some 0 },
    cancel := true }

/-- A dispatch state in which node 1 is running and node 0 completed. -/
def runningChainState : DState :=
  { node := fun i =>
      if i = 1 then { status := Status.running, out := none }
      else if i = 0 then { status := Status.completed, out := some 2 }
      else { status := Status.pending, out := none },
    cancel := false }

/-- Recorded outputs of a completed base run of `chainGraph`. -/
def chainBaseOut : Nat → Option Int := fun i =>
  match i with
  | 0 => some 2
  | 1 => some 3
  | 2 => some 6
  | _ => none

/-- A one-entry dispatch registry holding the failing chain. -/
def failRegistry : List (String × DispatchEntry) :=
  [("d1", { graph := failChainGraph, env := chainEnv, honors := fun _ => false,
            st := initState, fuel := 3, postId := 2 })]

/-- Invariant of a run in which the cancellation flag stays clear and the
executor environment never reports a failure: no node fails or is cancelled,
a node that has started has all its predecessors completed, and every
completed node's output is the value of its task on its resolved inputs. -/
def SuccInv (g : Graph) (env : Env) (st : DState) : Prop :=
  st.cancel = false ∧
  ∀ n ∈ g.nodes,
    ((st.node n.id).status = Status.running ∨ (st.node n.id).status = Status.completed →
       allPredsCompleted g st n.id = true) ∧
    (st.node n.id).status ≠ Status.failed ∧
    (st.node n.id).status ≠ Status.cancelled ∧
    ((st.node n.id).status = Status.completed →
       (st.node n.id).out = nodeEval g env st n)

/-!
Basic lemmas about the scheduling machine.
-/

theorem nodeState_ext {a b : NodeState} (hs : a.status = b.status)
    (ho : a.out = b.out) : a = b := by
  cases a; cases b; simp_all

theorem round_cancel (g : Graph) (env : Env) (honors : String → Bool) (st : DState) :
    (round g env honors st).cancel = st.cancel := rfl

theorem runRounds_cancel (g : Graph) (env : Env) (honors : String → Bool) :
    ∀ (k : Nat) (st : DState), (runRounds g env honors k st).cancel = st.cancel := by
  intro k
  induction k with
  | zero => intro st; rfl
  | succ k ih =>
      intro st
      show (round g env honors (runRounds g env honors k st)).cancel = st.cancel
      rw [round_cancel]
      exact ih st

theorem runRounds_add (g : Graph) (env : Env) (honors : String → Bool) :
    ∀ (a b : Nat) (st : DState),
      runRounds g env honors (a + b) st =
        runRounds g env honors a (runRounds g env honors b st) := by
  intro a
  induction a with
  | zero => intro b st; simp [runRounds]
  | succ a ih =>
      intro b st
      have hadd : a + 1 + b = (a + b) + 1 := by omega
      rw [hadd]
      show round g env honors (runRounds g env honors (a + b) st) = _
      rw [ih]
      rfl

theorem submitPhase_node (g : Graph) (st : DState) (i : Nat) :
    (submitPhase g st).node i =
      if i ∈ g.ids then stepSubmit g st i else st.node i := rfl

theorem stepSubmit_out (g : Graph) (st : DState) (i : Nat) :
    (stepSubmit g st i).out = (st.node i).out := by
  unfold stepSubmit
  cases hs : (st.node i).status <;> simp only [hs] <;> (try split_ifs) <;> rfl

theorem submitPhase_out (g : Graph) (st : DState) (i : Nat) :
    ((submitPhase g st).node i).out = (st.node i).out := by
  rw [submitPhase_node]
  split_ifs with h
  · exact stepSubmit_out g st i
  · rfl

theorem find_id_eq {g : Graph} {i : Nat} {n : Node}
    (h : g.nodes.find? (fun x => decide (x.id = i)) = some n) : n.id = i := by
  have := List.find?_some h
  simpa using this

theorem find_id_mem {g : Graph} {i : Nat} {n : Node}
    (h : g.nodes.find? (fun x => decide (x.id = i)) = some n) : n ∈ g.nodes :=
  List.mem_of_find?_eq_some h

theorem find_id_isSome {g : Graph} {i : Nat} (h : i ∈ g.ids) :
    ∃ n, g.nodes.find? (fun x => decide (x.id = i)) = some n := by
  obtain ⟨n, hn, hid⟩ := List.mem_map.mp h
  have : (g.nodes.find? (fun x => decide (x.id = i))).isSome = true := by
    apply List.find?_isSome.mpr
    exact ⟨n, hn, by simpa using hid⟩
  exact Option.isSome_iff_exists.mp this

theorem find_id_none {g : Graph} {i : Nat} (h : i ∉ g.ids) :
    g.nodes.find? (fun x => decide (x.id = i)) = none := by
  apply List.find?_eq_none.mpr
  intro n hn
  simp only [decide_eq_true_eq]
  intro hid
  exact h (List.mem_map.mpr ⟨n, hn, hid⟩)

theorem resolvePhase_node_none (g : Graph) (env : Env) (honors : String → Bool)
    (st : DState) (i : Nat) (h : i ∉ g.ids) :
    (resolvePhase g env honors st).node i = st.node i := by
  show (match g.nodes.find? (fun n => decide (n.id = i)) with
        | some n => stepResolve g env honors st n
        | none => st.node i) = st.node i
  rw [find_id_none h]

theorem resolvePhase_node_some (g : Graph) (env : Env) (honors : String → Bool)
    (st : DState) (i : Nat) (n : Node)
    (h : g.nodes.find? (fun x => decide (x.id = i)) = some n) :
    (resolvePhase g env honors st).node i = stepResolve g env honors st n := by
  show (match g.nodes.find? (fun x => decide (x.id = i)) with
        | some n => stepResolve g env honors st n
        | none => st.node i) = _
  rw [h]

theorem stepSubmit_terminal {g : Graph} {st : DState} {i : Nat}
    (h : isTerminal (st.node i).status = true) :
    stepSubmit g st i = st.node i := by
  unfold stepSubmit
  cases hs : (st.node i).status <;> simp_all [isTerminal]

theorem stepResolve_terminal {g : Graph} {env : Env} {honors : String → Bool}
    {st : DState} {n : Node}
    (h : isTerminal (st.node n.id).status = true) :
    stepResolve g env honors st n = st.node n.id := by
  unfold stepResolve
  cases hs : (st.node n.id).status <;> simp_all [isTerminal]

theorem submitPhase_terminal {g : Graph} {st : DState} {i : Nat}
    (h : isTerminal (st.node i).status = true) :
    (submitPhase g st).node i = st.node i := by
  rw [submitPhase_node]
  split_ifs with hi
  · exact stepSubmit_terminal h
  · rfl

theorem resolvePhase_terminal {g : Graph} {env : Env} {honors : String → Bool}
    {st : DState} {i : Nat}
    (h : isTerminal (st.node i).status = true) :
    (resolvePhase g env honors st).node i = st.node i := by
  by_cases hi : i ∈ g.ids
  · obtain ⟨n, hn⟩ := find_id_isSome hi
    have hid := find_id_eq hn
    rw [resolvePhase_node_some g env honors st i n hn]
    have h2 : isTerminal (st.node n.id).status = true := by rw [hid]; exact h
    rw [stepResolve_terminal h2, hid]
  · exact resolvePhase_node_none g env honors st i hi

theorem round_terminal {g : Graph} {env : Env} {honors : String → Bool}
    {st : DState} {i : Nat}
    (h : isTerminal (st.node i).status = true) :
    (round g env honors st).node i = st.node i := by
  unfold round
  have h1 : (submitPhase g st).node i = st.node i := submitPhase_terminal h
  have h2 : isTerminal ((submitPhase g st).node i).status = true := by rw [h1]; exact h
  rw [resolvePhase_terminal h2, h1]

theorem runRounds_terminal {g : Graph} {env : Env} {honors : String → Bool}
    {st : DState} {i : Nat}
    (h : isTerminal (st.node i).status = true) :
    ∀ k, (runRounds g env honors k st).node i = st.node i := by
  intro k
  induction k with
  | zero => rfl
  | succ k ih =>
      show (round g env honors (runRounds g env honors k st)).node i = st.node i
      rw [round_terminal (by rw [ih]; exact h), ih]

theorem round_outside {g : Graph} {env : Env} {honors : String → Bool}
    {st : DState} {i : Nat} (h : i ∉ g.ids) :
    (round g env honors st).node i = st.node i := by
  unfold round
  have hs : (submitPhase g st).node i = st.node i := by
    rw [submitPhase_node]; simp [h]
  rw [resolvePhase_node_none g env honors (submitPhase g st) i h, hs]

theorem runRounds_outside {g : Graph} {env : Env} {honors : String → Bool}
    {st : DState} {i : Nat} (h : i ∉ g.ids) :
    ∀ k, (runRounds g env honors k st).node i = st.node i := by
  intro k
  induction k with
  | zero => rfl
  | succ k ih =>
      show (round g env honors (runRounds g env honors k st)).node i = st.node i
      rw [round_outside h, ih]

theorem round_fix {g : Graph} {env : Env} {honors : String → Bool} {st : DState}
    (h : ∀ n ∈ g.nodes, isTerminal (st.node n.id).status = true) :
    ∀ i, (round g env honors st).node i = st.node i := by
  intro i
  by_cases hi : i ∈ g.ids
  · obtain ⟨n, hn, hid⟩ := List.mem_map.mp hi
    have := h n hn
    rw [hid] at this
    exact round_terminal this
  · exact round_outside hi

theorem stepResolve_other {g : Graph} {env : Env} {honors : String → Bool}
    {st : DState} {n : Node} (h : (st.node n.id).status ≠ Status.running) :
    stepResolve g env honors st n = st.node n.id := by
  unfold stepResolve
  cases hs : (st.node n.id).status <;> simp only [hs] <;> first | rfl | exact absurd hs h

theorem stepResolve_running_terminal {g : Graph} {env : Env} {honors : String → Bool}
    {st : DState} {n : Node} (h : (st.node n.id).status = Status.running) :
    isTerminal (stepResolve g env honors st n).status = true := by
  unfold stepResolve
  simp only [h]
  split_ifs
  · rfl
  · rcases htask : n.task with _ | ref
    · simp only [htask]
      rfl
    · simp only [htask]
      rcases henv : env ref (resolveArgs g st n.id) (resolveKw g st n.id) with _ | v
      · simp only [henv]
        rfl
      · simp only [henv]
        rfl

theorem mem_predEdges {g : Graph} {i : Nat} {e : Edge} (h : e ∈ predEdges g i) :
    e ∈ g.edges ∧ e.dst = i := by
  have := List.mem_filter.mp h
  exact ⟨this.1, by simpa using this.2⟩

theorem allPreds_of_terminal {g : Graph} {st : DState} {i : Nat}
    (hterm : ∀ e ∈ predEdges g i, isTerminal ((st.node e.src).status) = true)
    (hdead : deadPred g st i = false) :
    allPredsCompleted g st i = true := by
  unfold allPredsCompleted
  rw [List.all_eq_true]
  intro e he
  have ht := hterm e he
  have hnd : ∀ e ∈ predEdges g i,
      ¬((st.node e.src).status = Status.failed ∨
        (st.node e.src).status = Status.cancelled) := by
    intro e' he'
    intro hor
    have : deadPred g st i = true := by
      unfold deadPred
      rw [List.any_eq_true]
      refine ⟨e', he', ?_⟩
      rcases hor with h1 | h1 <;> simp [h1]
    rw [this] at hdead
    exact Bool.true_eq_false.mp hdead
  have hne := hnd e he
  cases hs : (st.node e.src).status <;> simp_all [isTerminal]

theorem node_terminal_after (g : Graph) (env : Env) (honors : String → Bool)
    (m : Nat → Nat) (hwf : WellFormed g) (hm : HeightFn g m) (st : DState) :
    ∀ k i, i ∈ g.ids → m i < k →
      isTerminal ((runRounds g env honors k st).node i).status = true := by
  intro k
  induction k with
  | zero => intro i hi h; omega
  | succ k ih =>
      intro i hi hlt
      by_cases hterm : isTerminal ((runRounds g env honors k st).node i).status = true
      · show isTerminal ((round g env honors (runRounds g env honors k st)).node i).status = true
        rw [round_terminal hterm]
        exact hterm
      set stk := runRounds g env honors k st with hstk
      obtain ⟨n, hn⟩ := find_id_isSome hi
      have hid := find_id_eq hn
      have hres : (round g env honors stk).node i =
          stepResolve g env honors (submitPhase g stk) n :=
        resolvePhase_node_some g env honors (submitPhase g stk) i n hn
      have hsub : (submitPhase g stk).node i = stepSubmit g stk i := by
        rw [submitPhase_node]
        simp [hi]
      show isTerminal ((round g env honors stk).node i).status = true
      rw [hres]
      cases hs : (stk.node i).status with
      | completed => simp [isTerminal, hs] at hterm
      | failed => simp [isTerminal, hs] at hterm
      | cancelled => simp [isTerminal, hs] at hterm
      | running =>
          have heq : (submitPhase g stk).node i = stk.node i := by
            rw [hsub]
            unfold stepSubmit
            simp only [hs]
          apply stepResolve_running_terminal
          rw [hid, heq]
          exact hs
      | pending =>
          have hpred : ∀ e ∈ predEdges g i,
              isTerminal ((stk.node e.src).status) = true := by
            intro e he
            obtain ⟨heedge, hdst⟩ := mem_predEdges he
            apply ih e.src ((hwf.2 e heedge).1)
            have hlt2 := hm e heedge
            rw [hdst] at hlt2
            omega
          by_cases hc : stk.cancel = true
          · have heq : ((submitPhase g stk).node i).status = Status.cancelled := by
              rw [hsub]
              unfold stepSubmit
              simp [hs, hc]
            rw [stepResolve_other (by rw [hid, heq]; simp)]
            rw [hid, heq]
            rfl
          · by_cases hd : deadPred g stk i = true
            · have heq : ((submitPhase g stk).node i).status = Status.cancelled := by
                rw [hsub]
                unfold stepSubmit
                simp [hs, hc, hd]
              rw [stepResolve_other (by rw [hid, heq]; simp)]
              rw [hid, heq]
              rfl
            · have hall : allPredsCompleted g stk i = true :=
                allPreds_of_terminal hpred (by simpa using hd)
              have heq : ((submitPhase g stk).node i).status = Status.running := by
                rw [hsub]
                unfold stepSubmit
                simp [hs, hc, hd, hall]
              apply stepResolve_running_terminal
              rw [hid]
              exact heq

theorem runRounds_fix {g : Graph} {env : Env} {honors : String → Bool} {st : DState}
    (h : ∀ n ∈ g.nodes, isTerminal (st.node n.id).status = true) :
    ∀ k i, (runRounds g env honors k st).node i = st.node i := by
  intro k
  induction k with
  | zero => intro i; rfl
  | succ k ih =>
      intro i
      show (round g env honors (runRounds g env honors k st)).node i = st.node i
      have hall : ∀ n ∈ g.nodes,
          isTerminal ((runRounds g env honors k st).node n.id).status = true := by
        intro n hn; rw [ih n.id]; exact h n hn
      rw [round_fix hall i, ih i]

theorem overall_of_terminal {g : Graph} {st : DState}
    (h : ∀ n ∈ g.nodes, isTerminal (st.node n.id).status = true) :
    overallStatus g st = DispStatus.completed ∨
    overallStatus g st = DispStatus.failed ∨
    overallStatus g st = DispStatus.cancelled := by
  unfold overallStatus
  split_ifs with h1 h2 h3
  · exact Or.inr (Or.inl rfl)
  · exact Or.inl rfl
  · exact Or.inr (Or.inr rfl)
  · exact absurd (List.all_eq_true.mpr h) h2

theorem overall_failed {g : Graph} {st : DState} {n : Node} (hn : n ∈ g.nodes)
    (hf : (st.node n.id).status = Status.failed) :
    overallStatus g st = DispStatus.failed := by
  unfold overallStatus
  rw [if_pos]
  rw [List.any_eq_true]
  exact ⟨n, hn, by simp [hf]⟩

theorem find_self_aux :
    ∀ (l : List Node) (n : Node), (l.map (fun x => x.id)).Nodup → n ∈ l →
      l.find? (fun x => decide (x.id = n.id)) = some n := by
  intro l
  induction l with
  | nil => intro n _ hmem; cases hmem
  | cons a tl ih =>
      intro n hnd hmem
      rw [List.map_cons, List.nodup_cons] at hnd
      by_cases hid : a.id = n.id
      · rcases List.mem_cons.mp hmem with rfl | htl
        · exact List.find?_cons_of_pos _ (by simp)
        · exact absurd (hid ▸ List.mem_map.mpr ⟨n, htl, rfl⟩) hnd.1
      · rcases List.mem_cons.mp hmem with rfl | htl
        · exact absurd rfl hid
        · rw [List.find?_cons_of_neg _ (by simp [hid])]
          exact ih n hnd.2 htl

theorem find_self {g : Graph} (hnd : g.ids.Nodup) {n : Node} (hn : n ∈ g.nodes) :
    g.nodes.find? (fun x => decide (x.id = n.id)) = some n :=
  find_self_aux g.nodes n hnd hn

/-- C9: for every acyclic graph — acyclicity witnessed by a height function
`m` with all node heights below `b` — the Scheduler's run starting from a
fresh dispatch reaches, within `b` scheduling rounds (a bound met in
particular by the depth of the graph), a state in which every node is
terminal (no runnable node is starved) and the derived Dispatch status is
terminal. -/
theorem claim9_scheduler_terminates (g : Graph) (env : Env) (honors : String → Bool)
    (m : Nat → Nat) (b : Nat) (hwf : WellFormed g) (hm : HeightFn g m)
    (hb : HeightBound g m b) :
    ∀ k, b ≤ k →
      (∀ n ∈ g.nodes,
        isTerminal ((runRounds g env honors k initState).node n.id).status = true) ∧
      (overallStatus g (runRounds g env honors k initState) = DispStatus.completed ∨
       overallStatus g (runRounds g env honors k initState) = DispStatus.failed ∨
       overallStatus g (runRounds g env honors k initState) = DispStatus.cancelled) := by
  intro k hk
  have hall : ∀ n ∈ g.nodes,
      isTerminal ((runRounds g env honors k initState).node n.id).status = true := by
    intro n hn
    apply node_terminal_after g env honors m hwf hm initState k n.id
      (List.mem_map.mpr ⟨n, hn, rfl⟩)
    have := hb n hn
    omega
  exact ⟨hall, overall_of_terminal hall⟩

theorem claim9_witness :
    WellFormed scenarioGraph ∧ HeightFn scenarioGraph scenarioHeights ∧
    HeightBound scenarioGraph scenarioHeights 4 ∧
    isTerminal ((runRounds scenarioGraph scenarioEnv scenarioHonors 4
      initState).node 0).status = true :=
  ⟨by decide, by decide, by decide,
    ((claim9_scheduler_terminates scenarioGraph scenarioEnv scenarioHonors
        scenarioHeights 4 (by decide) (by decide) (by decide)) 4 (le_refl 4)).1
      { id := 0, name := "task_1", task := some 1, param := none, executor := "dask" }
      (by decide)⟩

/-- C4: node statuses move only along the allowed transitions — unchanged,
`PENDING -> RUNNING` at submission, `RUNNING -> COMPLETED` and
`RUNNING -> FAILED` at completion, `PENDING -> CANCELLED` for never-started
nodes — in each half of a scheduling round; `RUNNING -> CANCELLED` occurs
only when the node's assigned executor honors cancellation and the flag is
set; and under an executor that does not honor cancellation, a `RUNNING`
node always reaches `COMPLETED` or `FAILED` within the next round, cancel
request or not. -/
theorem claim4_status_transitions (g : Graph) (env : Env) (honors : String → Bool)
    (st : DState) (n : Node) (hwf : WellFormed g) (hn : n ∈ g.nodes) :
    allowedPair (st.node n.id).status ((submitPhase g st).node n.id).status ∧
    allowedPair (st.node n.id).status ((resolvePhase g env honors st).node n.id).status ∧
    ((st.node n.id).status = Status.running →
      ((resolvePhase g env honors st).node n.id).status = Status.cancelled →
      honors n.executor = true ∧ st.cancel = true) ∧
    (honors n.executor = false → (st.node n.id).status = Status.running →
      (((round g env honors st).node n.id).status = Status.completed ∨
       ((round g env honors st).node n.id).status = Status.failed)) := by
  have hni : n.id ∈ g.ids := List.mem_map.mpr ⟨n, hn, rfl⟩
  have hfind := find_self hwf.1 hn
  have hsub : (submitPhase g st).node n.id = stepSubmit g st n.id := by
    rw [submitPhase_node]
    simp [hni]
  have hresolve : (resolvePhase g env honors st).node n.id = stepResolve g env honors st n :=
    resolvePhase_node_some g env honors st n.id n hfind
  refine ⟨?_, ?_, ?_, ?_⟩
  · rw [hsub]
    unfold stepSubmit
    cases hs : (st.node n.id).status <;> simp only [hs]
    case pending =>
        split_ifs <;> simp [allowedPair, hs]
    all_goals simp [allowedPair, hs]
  · rw [hresolve]
    unfold stepResolve
    cases hs : (st.node n.id).status <;> simp only [hs]
    case running =>
        split_ifs
        · simp [allowedPair]
        · rcases htask : n.task with _ | ref
          · simp [allowedPair]
          · rcases henv : env ref (resolveArgs g st n.id) (resolveKw g st n.id) with _ | v
            · simp [henv, allowedPair]
            · simp [henv, allowedPair]
    all_goals simp [allowedPair, hs]
  · intro hrun hcanc
    rw [hresolve] at hcanc
    unfold stepResolve at hcanc
    simp only [hrun] at hcanc
    split_ifs at hcanc with hca
    · simp only [Bool.and_eq_true] at hca
      exact ⟨hca.2, hca.1⟩
    · exfalso
      rcases htask : n.task with _ | ref
      · simp [htask] at hcanc
      · simp only [htask] at hcanc
        rcases henv : env ref (resolveArgs g st n.id) (resolveKw g st n.id) with _ | v
        · simp [henv] at hcanc
        · simp [henv] at hcanc
  · intro hhon hrun
    have hsubeq : (submitPhase g st).node n.id = st.node n.id := by
      rw [hsub]
      unfold stepSubmit
      simp only [hrun]
    have hround : (round g env honors st).node n.id =
        stepResolve g env honors (submitPhase g st) n :=
      resolvePhase_node_some g env honors (submitPhase g st) n.id n hfind
    rw [hround]
    unfold stepResolve
    rw [hsubeq]
    simp only [hrun]
    have hcon : ((submitPhase g st).cancel && honors n.executor) = false := by
      simp [hhon]
    rw [hcon]
    simp only [Bool.false_eq_true, if_false]
    rcases htask : n.task with _ | ref
    · simp
    · rcases henv : env ref (resolveArgs g (submitPhase g st) n.id)
        (resolveKw g (submitPhase g st) n.id) with _ | v
      · simp [henv]
      · simp [henv]

theorem claim4_witness :
    WellFormed chainGraph ∧
    (runningChainState.node 1).status = Status.running ∧
    (((round chainGraph chainEnv (fun _ => false) runningChainState).node 1).status =
        Status.completed ∨
     ((round chainGraph chainEnv (fun _ => false) runningChainState).node 1).status =
        Status.failed) :=
  ⟨by decide, rfl,
    (claim4_status_transitions chainGraph chainEnv (fun _ => false) runningChainState
      { id := 1, name := "mid", task := some 1, param := none, executor := "dask" }
      (by decide) (by decide)).2.2.2 rfl rfl⟩

/-- C8: once a cancellation request has been acknowledged, if any node has
reached `FAILED` — for example a running node that failed independently while
the cancel sweep was in progress — the Dispatch's outward status is `FAILED`
from that round on, never `CANCELLED`. -/
theorem claim8_failed_precedence (g : Graph) (env : Env) (honors : String → Bool)
    (st0 : DState) (hflag : st0.cancel = true) (k0 : Nat) (n : Node) (hn : n ∈ g.nodes)
    (hfail : ((runRounds g env honors k0 st0).node n.id).status = Status.failed) :
    ∀ k, k0 ≤ k → overallStatus g (runRounds g env honors k st0) = DispStatus.failed := by
  intro k hk
  have hsplit : runRounds g env honors k st0 =
      runRounds g env honors (k - k0) (runRounds g env honors k0 st0) := by
    rw [← runRounds_add]
    congr 1
    omega
  rw [hsplit]
  apply overall_failed hn
  rw [runRounds_terminal (by rw [hfail]; rfl) (k - k0)]
  exact hfail

theorem claim8_witness :
    failedCancelState.cancel = true ∧
    ((runRounds chainGraph chainEnv (fun _ => false) 0 failedCancelState).node 1).status =
      Status.failed ∧
    overallStatus chainGraph
      (runRounds chainGraph chainEnv (fun _ => false) 0 failedCancelState) =
      DispStatus.failed :=
  ⟨rfl, rfl,
    claim8_failed_precedence chainGraph chainEnv (fun _ => false) failedCancelState rfl 0
      { id := 1, name := "mid", task := some 1, param := none, executor := "dask" }
      (by decide) rfl 0 (le_refl 0)⟩


theorem submitsIn_nil_of_cancel {g : Graph} {st : DState} (h : st.cancel = true) :
    submitsIn g st = [] := by
  unfold submitsIn
  have hfil : g.nodes.filter (fun n =>
      decide ((st.node n.id).status = Status.pending) && !st.cancel &&
      !deadPred g st n.id && allPredsCompleted g st n.id && n.task.isSome) = [] := by
    rw [List.filter_eq_nil]
    intro n _
    simp [h]
  rw [hfil]
  rfl

theorem pending_cancelled_round {g : Graph} {env : Env} {honors : String → Bool}
    {st : DState} (hflag : st.cancel = true) {n : Node} (hn : n ∈ g.nodes)
    (hp : (st.node n.id).status = Status.pending) :
    ((round g env honors st).node n.id).status = Status.cancelled := by
  have hni : n.id ∈ g.ids := List.mem_map.mpr ⟨n, hn, rfl⟩
  obtain ⟨n', hfind⟩ := find_id_isSome hni
  have hsub : ((submitPhase g st).node n.id).status = Status.cancelled := by
    rw [submitPhase_node]
    simp only [hni, if_true]
    unfold stepSubmit
    simp [hp, hflag]
  have hround : (round g env honors st).node n.id =
      stepResolve g env honors (submitPhase g st) n' :=
    resolvePhase_node_some g env honors (submitPhase g st) n.id n' hfind
  have hid := find_id_eq hfind
  rw [hround, stepResolve_other (by rw [hid, hsub]; simp), hid, hsub]

/-- C1: once `cancel(dispatch_id)` has set the cancellation flag, no node is
ever again submitted to an Executor; every node that was `PENDING` when the
flag was set is `CANCELLED` from the next scheduling round on; and if no
node was `RUNNING` at that point and no node is `FAILED`, the Dispatch
settles on the terminal status `CANCELLED`. -/
theorem claim1_cancel_pending_nodes (g : Graph) (env : Env) (honors : String → Bool)
    (st0 : DState) (hflag : st0.cancel = true) :
    (∀ k, submitsIn g (runRounds g env honors k st0) = []) ∧
    (∀ n ∈ g.nodes, (st0.node n.id).status = Status.pending →
      ∀ k, 1 ≤ k →
        ((runRounds g env honors k st0).node n.id).status = Status.cancelled) ∧
    ((∀ n ∈ g.nodes, (st0.node n.id).status ≠ Status.running) →
     (∀ n ∈ g.nodes, (st0.node n.id).status ≠ Status.failed) →
     ∀ k, 1 ≤ k →
       overallStatus g (runRounds g env honors k st0) = DispStatus.cancelled) := by
  have hone : ∀ k, 1 ≤ k → runRounds g env honors k st0 =
      runRounds g env honors (k - 1) (runRounds g env honors 1 st0) := by
    intro k hk
    rw [← runRounds_add]
    congr 1
    omega
  refine ⟨?_, ?_, ?_⟩
  · intro k
    exact submitsIn_nil_of_cancel (by rw [runRounds_cancel]; exact hflag)
  · intro n hn hp k hk
    have h1 : ((runRounds g env honors 1 st0).node n.id).status = Status.cancelled := by
      show ((round g env honors st0).node n.id).status = _
      exact pending_cancelled_round hflag hn hp
    rw [hone k hk, runRounds_terminal (by rw [h1]; rfl) (k - 1)]
    exact h1
  · intro hnr hnf k hk
    have hterm1 : ∀ n ∈ g.nodes,
        isTerminal ((runRounds g env honors 1 st0).node n.id).status = true ∧
        ((runRounds g env honors 1 st0).node n.id).status ≠ Status.failed := by
      intro n hn
      cases hs : (st0.node n.id).status with
      | pending =>
          have h1 : ((runRounds g env honors 1 st0).node n.id).status = Status.cancelled := by
            show ((round g env honors st0).node n.id).status = _
            exact pending_cancelled_round hflag hn hs
          rw [h1]
          exact ⟨rfl, by simp⟩
      | running => exact absurd hs (hnr n hn)
      | failed => exact absurd hs (hnf n hn)
      | completed =>
          have h1 : (runRounds g env honors 1 st0).node n.id = st0.node n.id := by
            show (round g env honors st0).node n.id = _
            exact round_terminal (by rw [hs]; rfl)
          rw [h1, hs]
          exact ⟨rfl, by simp⟩
      | cancelled =>
          have h1 : (runRounds g env honors 1 st0).node n.id = st0.node n.id := by
            show (round g env honors st0).node n.id = _
            exact round_terminal (by rw [hs]; rfl)
          rw [h1, hs]
          exact ⟨rfl, by simp⟩
    have hpt : ∀ n ∈ g.nodes, (runRounds g env honors k st0).node n.id =
        (runRounds g env honors 1 st0).node n.id := by
      intro n hn
      rw [hone k hk]
      exact runRounds_fix (fun n' hn' => (hterm1 n' hn').1) (k - 1) n.id
    unfold overallStatus
    have hany : (g.nodes.any (fun n =>
        decide (((runRounds g env honors k st0).node n.id).status = Status.failed))) = false := by
      rw [Bool.eq_false_iff]
      intro hcon
      rw [List.any_eq_true] at hcon
      obtain ⟨n, hn, hd⟩ := hcon
      rw [hpt n hn] at hd
      exact (hterm1 n hn).2 (by simpa using hd)
    have hall : (g.nodes.all (fun n =>
        isTerminal ((runRounds g env honors k st0).node n.id).status)) = true := by
      rw [List.all_eq_true]
      intro n hn
      rw [hpt n hn]
      exact (hterm1 n hn).1
    rw [hany]
    simp only [Bool.false_eq_true, if_false, hall, if_true]
    have hcanc : (runRounds g env honors k st0).cancel = true := by
      rw [runRounds_cancel]
      exact hflag
    rw [hcanc]
    simp

theorem claim1_witness :
    cancelledPendingState.cancel = true ∧
    (cancelledPendingState.node 1).status = Status.pending ∧
    ((runRounds chainGraph chainEnv (fun _ => false) 1
        cancelledPendingState).node 1).status = Status.cancelled :=
  ⟨rfl, rfl,
    (claim1_cancel_pending_nodes chainGraph chainEnv (fun _ => false)
        cancelledPendingState rfl).2.1
      { id := 1, name := "mid", task := some 1, param := none, executor := "dask" }
      (by decide) rfl 1 (le_refl 1)⟩


/-- C5: for a registered dispatch id, `get_result` with `wait = true` returns
a record — it raises only for an unknown id, never because a task failed —
whose status is terminal, whose error summary is exactly the names of the
failed nodes, whose status is `FAILED` whenever some node failed, and whose
result field carries the post-process node's output. -/
theorem claim5_get_result_total (reg : List (String × DispatchEntry)) (did : String)
    (p : String × DispatchEntry)
    (hfind : reg.find? (fun q => decide (q.1 = did)) = some p)
    (m : Nat → Nat) (b : Nat) (hwf : WellFormed p.2.graph)
    (hm : HeightFn p.2.graph m) (hb : HeightBound p.2.graph m b)
    (hfuel : b ≤ p.2.fuel) :
    ∃ r : ResultRecord,
      getResult reg did true = Except.ok r ∧
      (r.status = DispStatus.completed ∨ r.status = DispStatus.failed ∨
       r.status = DispStatus.cancelled) ∧
      r.error = failedNames p.2.graph
        (runRounds p.2.graph p.2.env p.2.honors p.2.fuel p.2.st) ∧
      ((∃ n ∈ p.2.graph.nodes,
          ((runRounds p.2.graph p.2.env p.2.honors p.2.fuel p.2.st).node n.id).status =
            Status.failed) → r.status = DispStatus.failed) ∧
      r.result =
        ((runRounds p.2.graph p.2.env p.2.honors p.2.fuel p.2.st).node p.2.postId).out := by
  have hall : ∀ n ∈ p.2.graph.nodes,
      isTerminal ((runRounds p.2.graph p.2.env p.2.honors p.2.fuel p.2.st).node
        n.id).status = true := by
    intro n hn
    apply node_terminal_after p.2.graph p.2.env p.2.honors m hwf hm p.2.st p.2.fuel n.id
      (List.mem_map.mpr ⟨n, hn, rfl⟩)
    have := hb n hn
    omega
  have hok : getResult reg did true = Except.ok
      { status := overallStatus p.2.graph
          (runRounds p.2.graph p.2.env p.2.honors p.2.fuel p.2.st),
        result := ((runRounds p.2.graph p.2.env p.2.honors p.2.fuel p.2.st).node
          p.2.postId).out,
        nodeOutputs := p.2.graph.nodes.map (fun n =>
          (n.name, ((runRounds p.2.graph p.2.env p.2.honors p.2.fuel p.2.st).node
            n.id).out)),
        error := failedNames p.2.graph
          (runRounds p.2.graph p.2.env p.2.honors p.2.fuel p.2.st) } := by
    unfold getResult
    rw [hfind]
    rfl
  refine ⟨_, hok, ?_, rfl, ?_, rfl⟩
  · exact overall_of_terminal hall
  · intro hex
    obtain ⟨n, hn, hf⟩ := hex
    exact overall_failed hn hf

theorem claim5_witness :
    ∃ r : ResultRecord,
      getResult failRegistry "d1" true = Except.ok r ∧
      (r.status = DispStatus.completed ∨ r.status = DispStatus.failed ∨
       r.status = DispStatus.cancelled) := by
  obtain ⟨r, h1, h2, h3⟩ := claim5_get_result_total failRegistry "d1"
    ("d1", { graph := failChainGraph, env := chainEnv, honors := fun _ => false,
             st := initState, fuel := 3, postId := 2 })
    rfl chainHeights 3 (by decide) (by decide) (by decide) (by decide)
  exact ⟨r, h1, h2⟩

/-- C7: dispatching the documented scenario graph — parameter 2 feeding the
squaring task, the multiply task combining that output with the literal 3,
the cube task on the literal 5 behind a wait-only edge, and the declared
return combining both — terminates with Dispatch status `COMPLETED`, node
outputs 4 and 12 for the first two task nodes, and final result 1500. -/
theorem claim7_documented_scenario :
    overallStatus scenarioGraph scenarioFinal = DispStatus.completed ∧
    (scenarioFinal.node 0).out = some 4 ∧
    (scenarioFinal.node 2).out = some 12 ∧
    (scenarioFinal.node 6).out = some 1500 ∧
    (scenarioFinal.node 0).status = Status.completed ∧
    (scenarioFinal.node 2).status = Status.completed := by
  decide

/-- C10: `filterGraph` returns exactly the nodes satisfying the predicate and
exactly the links whose source node satisfies the predicate, with no
condition on the target — so a kept link may reference a node absent from the
returned node set, as the closing existential exhibits. -/
theorem claim10_filter_graph :
    (∀ (g : UiGraph) (p : UiNode → Bool) (n : UiNode),
       n ∈ (filterGraph g p).nodes ↔ n ∈ g.nodes ∧ p n = true) ∧
    (∀ (g : UiGraph) (p : UiNode → Bool) (l : UiLink),
       l ∈ (filterGraph g p).links ↔
         l ∈ g.links ∧ ∃ n ∈ g.nodes, p n = true ∧ n.id = l.source) ∧
    (∃ (g : UiGraph) (p : UiNode → Bool) (l : UiLink),
       l ∈ (filterGraph g p).links ∧
       ∀ n ∈ (filterGraph g p).nodes, n.id ≠ l.target) := by
  refine ⟨?_, ?_, ?_⟩
  · intro g p n
    simp [filterGraph, List.mem_filter]
  · intro g p l
    constructor
    · intro h
      have hmf := List.mem_filter.mp h
      refine ⟨hmf.1, ?_⟩
      have hc : l.source ∈ (g.nodes.filter p).map (fun n => n.id) := by
        have := hmf.2
        simpa [List.elem_iff] using this
      obtain ⟨n, hn, hid⟩ := List.mem_map.mp hc
      have hnf := List.mem_filter.mp hn
      exact ⟨n, hnf.1, hnf.2, hid⟩
    · rintro ⟨hl, n, hn, hp, hid⟩
      apply List.mem_filter.mpr
      refine ⟨hl, ?_⟩
      have : l.source ∈ (g.nodes.filter p).map (fun n => n.id) :=
        List.mem_map.mpr ⟨n, List.mem_filter.mpr ⟨hn, hp⟩, hid⟩
      simpa [List.elem_iff] using this
  · refine ⟨{ nodes := [{ id := 0, name := "a" }, { id := 1, name := "b" }],
              links := [{ source := 0, target := 1 }] },
            fun n => decide (n.id = 0), { source := 0, target := 1 }, ?_, ?_⟩
    · decide
    · decide

theorem claim10_witness :
    ({ id := 0, name := "a" } : UiNode) ∈
      (filterGraph
        { nodes := [{ id := 0, name := "a" }, { id := 1, name := "b" }],
          links := [{ source := 0, target := 1 }] }
        (fun n => decide (n.id = 0))).nodes :=
  (claim10_filter_graph.1 _ _ _).mpr ⟨by decide, by decide⟩

theorem substituteNode_id (subs : List (String × Nat)) (n : Node) :
    (substituteNode subs n).id = n.id := by
  unfold substituteNode
  split_ifs with h
  · rcases hf : subs.find? (fun s => decide (s.1 = n.name)) with _ | s <;> simp [hf]
  · rfl

theorem rebindNode_id (newArgs : Nat → Int) (n : Node) :
    (rebindNode newArgs n).id = n.id := by
  unfold rebindNode
  split_ifs <;> rfl

theorem substituteNode_nil (n : Node) : substituteNode [] n = n := by
  unfold substituteNode
  split_ifs <;> rfl

theorem find_map_id {l : List Node} {f : Node → Node}
    (hf : ∀ x, (f x).id = x.id) (i : Nat) :
    (l.map f).find? (fun n => decide (n.id = i)) =
      (l.find? (fun n => decide (n.id = i))).map f := by
  induction l with
  | nil => rfl
  | cons a tl ih =>
      rw [List.map_cons]
      by_cases h : a.id = i
      · rw [List.find?_cons_of_pos _ (by simp [hf, h]),
            List.find?_cons_of_pos _ (by simp [h])]
        rfl
      · rw [List.find?_cons_of_neg _ (by simp [hf, h]),
            List.find?_cons_of_neg _ (by simp [h]), ih]

theorem redispatchGraph_ids (base : Graph) (subs : List (String × Nat))
    (newArgs : Nat → Int) : (redispatchGraph base subs newArgs).ids = base.ids := by
  unfold redispatchGraph Graph.ids
  simp only [List.map_map]
  apply List.map_congr_left
  intro n _
  show (rebindNode newArgs (substituteNode subs n)).id = n.id
  rw [rebindNode_id, substituteNode_id]

theorem mem_valuePredEdges {g : Graph} {i : Nat} {e : Edge}
    (h : e ∈ valuePredEdges g i) :
    e ∈ g.edges ∧ e.dst = i ∧ e.kind ≠ EdgeKind.waitOnly := by
  have hmf := List.mem_filter.mp h
  have h2 := hmf.2
  simp only [Bool.and_eq_true, decide_eq_true_eq] at h2
  refine ⟨hmf.1, h2.1, ?_⟩
  simpa using h2.2

theorem reusable_all (base : Graph) (bout : Nat → Option Int) (newArgs : Nat → Int)
    (m : Nat → Nat) (hwf : WellFormed base) (hm : HeightFn base m)
    (hcomplete : ∀ n ∈ base.nodes, (bout n.id).isSome = true)
    (hsame : ∀ n ∈ base.nodes, n.task = none → n.param = some (newArgs n.id)) :
    ∀ fuel i, i ∈ base.ids → m i < fuel →
      reusableF base bout (redispatchGraph base [] newArgs) fuel i = true := by
  intro fuel
  induction fuel with
  | zero => intro i _ h; omega
  | succ fuel ih =>
      intro i hi hlt
      obtain ⟨n, hn, hid⟩ := List.mem_map.mp hi
      have hfindb : base.nodes.find? (fun x => decide (x.id = i)) = some n := by
        rw [← hid]
        exact find_self hwf.1 hn
      have hfmap : (redispatchGraph base [] newArgs).nodes.find?
          (fun x => decide (x.id = i)) =
          some (rebindNode newArgs (substituteNode [] n)) := by
        show (base.nodes.map (fun n => rebindNode newArgs (substituteNode [] n))).find?
          (fun x => decide (x.id = i)) = _
        rw [find_map_id (fun x => by rw [rebindNode_id, substituteNode_id]) i, hfindb]
        rfl
      unfold reusableF
      rw [hfindb, hfmap]
      simp only [Bool.and_eq_true, decide_eq_true_eq]
      rw [substituteNode_nil]
      refine ⟨⟨⟨?_, ?_⟩, ?_⟩, ?_⟩
      · unfold rebindNode
        split_ifs <;> rfl
      · unfold rebindNode
        split_ifs with ht
        · rfl
        · have htn : n.task = none := Option.not_isSome_iff_eq_none.mp ht
          have := hsame n hn htn
          simp [this]
      · rw [← hid]
        exact hcomplete n hn
      · rw [List.all_eq_true]
        intro e he
        obtain ⟨heedge, hdst, _⟩ := mem_valuePredEdges he
        apply ih e.src ((hwf.2 e heedge).1)
        have hlt2 := hm e heedge
        rw [hdst] at hlt2
        omega

/-- C3: redispatching a terminally completed base Dispatch with
`reuse_previous_results = true`, no substitutions and arguments identical to
the base run pre-seeds every node `COMPLETED` with the base run's stored
output, the run never changes the seeded state, zero nodes are ever
submitted for execution, and the output slot of any node — in particular the
post-process node carrying the final result — equals the base run's stored
value. -/
theorem claim3_full_reuse (base : Graph) (bout : Nat → Option Int) (newArgs : Nat → Int)
    (m : Nat → Nat) (b : Nat) (hwf : WellFormed base) (hm : HeightFn base m)
    (hb : HeightBound base m b)
    (hcomplete : ∀ n ∈ base.nodes, (bout n.id).isSome = true)
    (hsame : ∀ n ∈ base.nodes, n.task = none → n.param = some (newArgs n.id)) :
    (∀ n ∈ base.nodes,
       (seedState base bout (redispatchGraph base [] newArgs) b).node n.id =
         { status := Status.completed, out := bout n.id }) ∧
    (∀ (env : Env) (honors : String → Bool) (k i : Nat),
       (runRounds (redispatchGraph base [] newArgs) env honors k
         (seedState base bout (redispatchGraph base [] newArgs) b)).node i =
       (seedState base bout (redispatchGraph base [] newArgs) b).node i) ∧
    (∀ (env : Env) (honors : String → Bool) (k : Nat),
       submitsIn (redispatchGraph base [] newArgs)
         (runRounds (redispatchGraph base [] newArgs) env honors k
           (seedState base bout (redispatchGraph base [] newArgs) b)) = []) ∧
    (∀ (env : Env) (honors : String → Bool) (k pid : Nat), pid ∈ base.ids →
       ((runRounds (redispatchGraph base [] newArgs) env honors k
          (seedState base bout (redispatchGraph base [] newArgs) b)).node pid).out =
         bout pid) := by
  have hseed : ∀ i ∈ base.ids,
      (seedState base bout (redispatchGraph base [] newArgs) b).node i =
        { status := Status.completed, out := bout i } := by
    intro i hi
    obtain ⟨n, hn, hid⟩ := List.mem_map.mp hi
    have hr : reusableF base bout (redispatchGraph base [] newArgs) b i = true := by
      apply reusable_all base bout newArgs m hwf hm hcomplete hsame b i hi
      rw [← hid]
      exact hb n hn
    unfold seedState
    simp [hr]
  have hterm : ∀ n' ∈ (redispatchGraph base [] newArgs).nodes,
      isTerminal ((seedState base bout (redispatchGraph base [] newArgs) b).node
        n'.id).status = true := by
    intro n' hn'
    have hi : n'.id ∈ base.ids := by
      rw [← redispatchGraph_ids base [] newArgs]
      exact List.mem_map.mpr ⟨n', hn', rfl⟩
    rw [hseed n'.id hi]
    rfl
  have hfix : ∀ (env : Env) (honors : String → Bool) (k i : Nat),
      (runRounds (redispatchGraph base [] newArgs) env honors k
        (seedState base bout (redispatchGraph base [] newArgs) b)).node i =
      (seedState base bout (redispatchGraph base [] newArgs) b).node i := by
    intro env honors k i
    exact runRounds_fix hterm k i
  refine ⟨?_, hfix, ?_, ?_⟩
  · intro n hn
    exact hseed n.id (List.mem_map.mpr ⟨n, hn, rfl⟩)
  · intro env honors k
    unfold submitsIn
    rw [List.filter_eq_nil.mpr]
    · rfl
    · intro n' hn'
      have hi : n'.id ∈ base.ids := by
        rw [← redispatchGraph_ids base [] newArgs]
        exact List.mem_map.mpr ⟨n', hn', rfl⟩
      have hst := hfix env honors k n'.id
      rw [hseed n'.id hi] at hst
      simp [hst]
  · intro env honors k pid hpid
    rw [hfix env honors k pid, hseed pid hpid]

theorem claim3_witness :
    (∀ n ∈ chainGraph.nodes, (chainBaseOut n.id).isSome = true) ∧
    (seedState chainGraph chainBaseOut
      (redispatchGraph chainGraph [] (fun _ => 2)) 3).node 2 =
      { status := Status.completed, out := some 6 } :=
  ⟨by decide,
    (claim3_full_reuse chainGraph chainBaseOut (fun _ => 2) chainHeights 3
      (by decide) (by decide) (by decide) (by decide) (by decide)).1
      { id := 2, name := "last", task := some 2, param := none, executor := "dask" }
      (by decide)⟩

theorem id_unique {g : Graph} (hnd : g.ids.Nodup) {n1 n2 : Node}
    (h1 : n1 ∈ g.nodes) (h2 : n2 ∈ g.nodes) (hid : n1.id = n2.id) : n1 = n2 := by
  have f1 := find_self (g := g) hnd h1
  have f2 := find_self (g := g) hnd h2
  rw [hid] at f1
  rw [f2] at f1
  injection f1.symm

theorem substituteNode_matched {subName : String} {newRef : Nat} {n : Node}
    (h : matchedBy subName n = true) :
    substituteNode [(subName, newRef)] n = { n with task := some newRef } := by
  unfold matchedBy at h
  simp only [Bool.and_eq_true, decide_eq_true_eq] at h
  unfold substituteNode
  rw [if_pos h.1, List.find?_cons_of_pos _ (by simp [h.2])]

theorem substituteNode_unmatched {subName : String} {newRef : Nat} {n : Node}
    (h : matchedBy subName n = false) :
    substituteNode [(subName, newRef)] n = n := by
  unfold substituteNode
  by_cases ht : n.task.isSome
  · rw [if_pos ht]
    have hname : n.name ≠ subName := by
      unfold matchedBy at h
      intro hc
      rw [hc] at h
      simp [ht] at h
    rw [List.find?_cons_of_neg _ (by
      simp only [decide_eq_true_eq]
      intro hc
      exact hname hc.symm)]
    rfl
  · rw [if_neg ht]

theorem affected_inv {base : Graph} {subName : String} {i : Nat}
    (h : Affected base subName i) :
    (∃ n ∈ base.nodes, matchedBy subName n = true ∧ n.id = i) ∨
    (∃ e ∈ base.edges, e.kind ≠ EdgeKind.waitOnly ∧ e.dst = i ∧
       Affected base subName e.src) := by
  cases h with
  | matched n hn hm => exact Or.inl ⟨n, hn, hm, rfl⟩
  | step e he hk ha => exact Or.inr ⟨e, he, hk, rfl, ha⟩

theorem reusable_sub_iff (base : Graph) (bout : Nat → Option Int) (newArgs : Nat → Int)
    (subName : String) (newRef : Nat) (m : Nat → Nat)
    (hwf : WellFormed base) (hm : HeightFn base m)
    (hcomplete : ∀ n ∈ base.nodes, (bout n.id).isSome = true)
    (hsame : ∀ n ∈ base.nodes, n.task = none → n.param = some (newArgs n.id))
    (hchanged : ∀ n ∈ base.nodes, matchedBy subName n = true → n.task ≠ some newRef) :
    ∀ fuel i, i ∈ base.ids → m i < fuel →
      (reusableF base bout (redispatchGraph base [(subName, newRef)] newArgs) fuel i =
          false ↔ Affected base subName i) := by
  intro fuel
  induction fuel with
  | zero => intro i _ h; omega
  | succ fuel ih =>
      intro i hi hlt
      obtain ⟨n, hn, hid⟩ := List.mem_map.mp hi
      have hfindb : base.nodes.find? (fun x => decide (x.id = i)) = some n := by
        rw [← hid]
        exact find_self hwf.1 hn
      have hfmap : (redispatchGraph base [(subName, newRef)] newArgs).nodes.find?
          (fun x => decide (x.id = i)) =
          some (rebindNode newArgs (substituteNode [(subName, newRef)] n)) := by
        show (base.nodes.map
          (fun n => rebindNode newArgs (substituteNode [(subName, newRef)] n))).find?
          (fun x => decide (x.id = i)) = _
        rw [find_map_id (fun x => by rw [rebindNode_id, substituteNode_id]) i, hfindb]
        rfl
      unfold reusableF
      rw [hfindb, hfmap]
      show (decide (n.task =
          (rebindNode newArgs (substituteNode [(subName, newRef)] n)).task) &&
        decide (n.param =
          (rebindNode newArgs (substituteNode [(subName, newRef)] n)).param) &&
        (bout i).isSome &&
        (valuePredEdges base i).all (fun e =>
          reusableF base bout (redispatchGraph base [(subName, newRef)] newArgs)
            fuel e.src)) = false ↔ Affected base subName i
      by_cases hmatch : matchedBy subName n = true
      · have htask : (rebindNode newArgs
            (substituteNode [(subName, newRef)] n)).task = some newRef := by
          rw [substituteNode_matched hmatch]
          unfold rebindNode
          rw [if_pos (by simp)]
        constructor
        · intro _
          rw [← hid]
          exact Affected.matched n hn hmatch
        · intro _
          rw [htask]
          have hne := hchanged n hn hmatch
          simp [hne]
      · have hmatchf : matchedBy subName n = false := Bool.eq_false_iff.mpr hmatch
        have hfneq : rebindNode newArgs (substituteNode [(subName, newRef)] n) =
            (if n.task.isSome then n else { n with param := some (newArgs n.id) }) := by
          rw [substituteNode_unmatched hmatchf]
          rfl
        have htaskeq : (rebindNode newArgs
            (substituteNode [(subName, newRef)] n)).task = n.task := by
          rw [hfneq]
          split_ifs <;> rfl
        have hparameq : n.param = (rebindNode newArgs
            (substituteNode [(subName, newRef)] n)).param := by
          rw [hfneq]
          split_ifs with ht
          · rfl
          · have htn := Option.not_isSome_iff_eq_none.mp ht
            simpa using hsame n hn htn
        have hbo : (bout i).isSome = true := by
          rw [← hid]
          exact hcomplete n hn
        have hsimp : (decide (n.task = (rebindNode newArgs
            (substituteNode [(subName, newRef)] n)).task) &&
            decide (n.param = (rebindNode newArgs
              (substituteNode [(subName, newRef)] n)).param) &&
            (bout i).isSome &&
            (valuePredEdges base i).all (fun e =>
              reusableF base bout (redispatchGraph base [(subName, newRef)] newArgs)
                fuel e.src)) =
            (valuePredEdges base i).all (fun e =>
              reusableF base bout (redispatchGraph base [(subName, newRef)] newArgs)
                fuel e.src) := by
          rw [htaskeq, ← hparameq]
          simp [hbo]
        rw [hsimp]
        constructor
        · intro hall
          have hex : ∃ e ∈ valuePredEdges base i,
              reusableF base bout (redispatchGraph base [(subName, newRef)] newArgs)
                fuel e.src = false := by
            by_contra hcon
            push_neg at hcon
            have hallt : (valuePredEdges base i).all (fun e =>
                reusableF base bout (redispatchGraph base [(subName, newRef)] newArgs)
                  fuel e.src) = true := by
              rw [List.all_eq_true]
              intro e he
              cases hre : reusableF base bout
                  (redispatchGraph base [(subName, newRef)] newArgs) fuel e.src
              · exact absurd hre (hcon e he)
              · rfl
            rw [hallt] at hall
            exact absurd hall (by simp)
          obtain ⟨e, he, hre⟩ := hex
          obtain ⟨heedge, hdst, hkind⟩ := mem_valuePredEdges he
          have hsrc : m e.src < fuel := by
            have hlt2 := hm e heedge
            rw [hdst] at hlt2
            omega
          have haff := (ih e.src ((hwf.2 e heedge).1) hsrc).mp hre
          have hstep := Affected.step e heedge hkind haff
          rw [hdst] at hstep
          exact hstep
        · intro haff
          rcases affected_inv haff with ⟨n2, hn2, hm2, hid2⟩ | ⟨e, he, hk, hdst, ha⟩
          · exfalso
            have heqn : n2 = n := id_unique hwf.1 hn2 hn (by rw [hid2, ← hid])
            rw [heqn] at hm2
            exact hmatch hm2
          · have hmem : e ∈ valuePredEdges base i :=
              List.mem_filter.mpr ⟨he, by simp [hdst, hk]⟩
            have hsrc : m e.src < fuel := by
              have hlt2 := hm e he
              rw [hdst] at hlt2
              omega
            have hre := (ih e.src ((hwf.2 e he).1) hsrc).mpr ha
            rw [Bool.eq_false_iff]
            intro hall
            rw [List.all_eq_true] at hall
            have hcon := hall e hmem
            rw [hre] at hcon
            exact absurd hcon (by simp)

/-- C6: redispatching with one substituted task name (and reuse of previous
results, identical arguments) swaps the substituted nodes' task reference in
the cloned graph before any execution, forces exactly the substituted nodes
and their value-dependency descendants back to `PENDING` for re-execution,
and pre-seeds every other node — ancestors and independent siblings —
`COMPLETED` with the base run's stored output. -/
theorem claim6_substitution (base : Graph) (bout : Nat → Option Int) (newArgs : Nat → Int)
    (subName : String) (newRef : Nat) (m : Nat → Nat) (b : Nat)
    (hwf : WellFormed base) (hm : HeightFn base m) (hb : HeightBound base m b)
    (hcomplete : ∀ n ∈ base.nodes, (bout n.id).isSome = true)
    (hsame : ∀ n ∈ base.nodes, n.task = none → n.param = some (newArgs n.id))
    (hchanged : ∀ n ∈ base.nodes, matchedBy subName n = true → n.task ≠ some newRef) :
    (∀ n ∈ base.nodes, matchedBy subName n = true →
       ∃ n' ∈ (redispatchGraph base [(subName, newRef)] newArgs).nodes,
         n'.id = n.id ∧ n'.task = some newRef) ∧
    (∀ n ∈ base.nodes,
       (((seedState base bout (redispatchGraph base [(subName, newRef)] newArgs) b).node
           n.id).status = Status.pending ↔ Affected base subName n.id)) ∧
    (∀ n ∈ base.nodes, ¬Affected base subName n.id →
       (seedState base bout (redispatchGraph base [(subName, newRef)] newArgs) b).node
         n.id = { status := Status.completed, out := bout n.id }) := by
  have hkey : ∀ n ∈ base.nodes,
      (reusableF base bout (redispatchGraph base [(subName, newRef)] newArgs) b n.id =
        false ↔ Affected base subName n.id) := by
    intro n hn
    exact reusable_sub_iff base bout newArgs subName newRef m hwf hm hcomplete hsame
      hchanged b n.id (List.mem_map.mpr ⟨n, hn, rfl⟩) (hb n hn)
  have hseedval : ∀ j,
      (seedState base bout (redispatchGraph base [(subName, newRef)] newArgs) b).node j =
        if reusableF base bout (redispatchGraph base [(subName, newRef)] newArgs) b j
        then { status := Status.completed, out := bout j }
        else { status := Status.pending, out := none } := fun j => rfl
  refine ⟨?_, ?_, ?_⟩
  · intro n hn hmatch
    refine ⟨rebindNode newArgs (substituteNode [(subName, newRef)] n), ?_, ?_, ?_⟩
    · exact List.mem_map.mpr ⟨n, hn, rfl⟩
    · rw [rebindNode_id, substituteNode_id]
    · rw [substituteNode_matched hmatch]
      unfold rebindNode
      rw [if_pos (by simp)]
  · intro n hn
    rw [hseedval n.id]
    constructor
    · intro hp
      apply (hkey n hn).mp
      by_cases hr : reusableF base bout
          (redispatchGraph base [(subName, newRef)] newArgs) b n.id = true
      · rw [if_pos hr] at hp
        exact absurd hp (by simp)
      · exact Bool.eq_false_iff.mpr hr
    · intro haff
      have hr := (hkey n hn).mpr haff
      rw [if_neg (by rw [hr]; simp)]
  · intro n hn haff
    have hr : reusableF base bout
        (redispatchGraph base [(subName, newRef)] newArgs) b n.id = true := by
      cases hre : reusableF base bout
          (redispatchGraph base [(subName, newRef)] newArgs) b n.id
      · exact absurd ((hkey n hn).mp hre) haff
      · rfl
    rw [hseedval n.id, if_pos hr]

theorem claim6_witness :
    (∀ n ∈ chainGraph.nodes, matchedBy "mid" n = true → n.task ≠ some 5) ∧
    (∃ n' ∈ (redispatchGraph chainGraph [("mid", 5)] (fun _ => 2)).nodes,
       n'.id = 1 ∧ n'.task = some 5) ∧
    ((seedState chainGraph chainBaseOut
        (redispatchGraph chainGraph [("mid", 5)] (fun _ => 2)) 3).node 1).status =
      Status.pending :=
  ⟨by decide,
    (claim6_substitution chainGraph chainBaseOut (fun _ => 2) "mid" 5 chainHeights 3
        (by decide) (by decide) (by decide) (by decide) (by decide) (by decide)).1
      { id := 1, name := "mid", task := some 1, param := none, executor := "dask" }
      (by decide) (by decide),
    ((claim6_substitution chainGraph chainBaseOut (fun _ => 2) "mid" 5 chainHeights 3
        (by decide) (by decide) (by decide) (by decide) (by decide) (by decide)).2.1
      { id := 1, name := "mid", task := some 1, param := none, executor := "dask" }
      (by decide)).mpr
      (Affected.matched
        { id := 1, name := "mid", task := some 1, param := none, executor := "dask" }
        (by decide) (by decide))⟩

theorem find?_filter_imp {α : Type} (l : List α) (p q : α → Bool)
    (h : ∀ a, p a = true → q a = true) :
    (l.filter q).find? p = l.find? p := by
  induction l with
  | nil => rfl
  | cons a tl ih =>
      by_cases hq : q a = true
      · rw [List.filter_cons_of_pos hq]
        by_cases hp : p a = true
        · rw [List.find?_cons_of_pos _ hp, List.find?_cons_of_pos _ hp]
        · rw [List.find?_cons_of_neg _ hp, List.find?_cons_of_neg _ hp]
          exact ih
      · rw [List.filter_cons_of_neg (by simpa using hq)]
        have hp : ¬p a = true := fun hpa => hq (h a hpa)
        rw [List.find?_cons_of_neg _ hp]
        exact ih

theorem filter_filter_imp {α : Type} (l : List α) (p q : α → Bool)
    (h : ∀ a, p a = true → q a = true) :
    (l.filter q).filter p = l.filter p := by
  induction l with
  | nil => rfl
  | cons a tl ih =>
      by_cases hq : q a = true
      · rw [List.filter_cons_of_pos hq]
        by_cases hp : p a = true
        · rw [List.filter_cons_of_pos hp, List.filter_cons_of_pos hp, ih]
        · rw [List.filter_cons_of_neg (by simpa using hp),
              List.filter_cons_of_neg (by simpa using hp)]
          exact ih
      · rw [List.filter_cons_of_neg (by simpa using hq)]
        have hp : ¬p a = true := fun hpa => hq (h a hpa)
        rw [List.filter_cons_of_neg (by simpa using hp)]
        exact ih

theorem posEdgeAt_dropWait (g : Graph) (i j : Nat) :
    posEdgeAt (dropWait g) i j = posEdgeAt g i j := by
  unfold posEdgeAt dropWait
  apply find?_filter_imp
  intro e he
  simp only [Bool.and_eq_true, decide_eq_true_eq] at he
  simp [he.2]

theorem posCount_dropWait (g : Graph) (i : Nat) :
    posCount (dropWait g) i = posCount g i := by
  unfold posCount dropWait
  congr 1
  apply filter_filter_imp
  intro e he
  simp only [Bool.and_eq_true] at he
  have : isPosKind e.kind = true := he.2
  unfold isPosKind at this
  cases hk : e.kind <;> simp [hk] <;> rw [hk] at this <;> simp at this

theorem kwEdges_dropWait (g : Graph) (i : Nat) :
    kwEdges (dropWait g) i = kwEdges g i := by
  unfold kwEdges dropWait
  apply filter_filter_imp
  intro e he
  simp only [Bool.and_eq_true] at he
  have : isKwKind e.kind = true := he.2
  unfold isKwKind at this
  cases hk : e.kind <;> simp [hk] <;> rw [hk] at this <;> simp at this

theorem resolveArgs_dropWait (g : Graph) (st : DState) (i : Nat) :
    resolveArgs (dropWait g) st i = resolveArgs g st i := by
  unfold resolveArgs
  rw [posCount_dropWait]
  apply List.map_congr_left
  intro j _
  unfold argAt
  rw [posEdgeAt_dropWait]

theorem resolveKw_dropWait (g : Graph) (st : DState) (i : Nat) :
    resolveKw (dropWait g) st i = resolveKw g st i := by
  unfold resolveKw
  rw [kwEdges_dropWait]

theorem nodeEval_dropWait (g : Graph) (env : Env) (st : DState) (n : Node) :
    nodeEval (dropWait g) env st n = nodeEval g env st n := by
  unfold nodeEval
  cases n.task
  · rfl
  · rw [resolveArgs_dropWait, resolveKw_dropWait]

theorem resolveArgs_congr {g : Graph} {st1 st2 : DState} {i : Nat}
    (h : ∀ e ∈ g.edges, e.dst = i → (st1.node e.src).out = (st2.node e.src).out) :
    resolveArgs g st1 i = resolveArgs g st2 i := by
  unfold resolveArgs
  apply List.map_congr_left
  intro j _
  unfold argAt
  cases hf : posEdgeAt g i j with
  | none => rfl
  | some e =>
      have hmem : e ∈ g.edges := List.mem_of_find?_eq_some hf
      have hprops := List.find?_some hf
      simp only [Bool.and_eq_true, decide_eq_true_eq] at hprops
      show ((st1.node e.src).out).getD 0 = ((st2.node e.src).out).getD 0
      rw [h e hmem hprops.1]

theorem resolveKw_congr {g : Graph} {st1 st2 : DState} {i : Nat}
    (h : ∀ e ∈ g.edges, e.dst = i → (st1.node e.src).out = (st2.node e.src).out) :
    resolveKw g st1 i = resolveKw g st2 i := by
  unfold resolveKw
  apply List.map_congr_left
  intro e he
  have hmf := List.mem_filter.mp he
  have h2 := hmf.2
  simp only [Bool.and_eq_true, decide_eq_true_eq] at h2
  rw [h e hmf.1 h2.1]

theorem nodeEval_congr {g : Graph} {env : Env} {st1 st2 : DState} {n : Node}
    (h : ∀ e ∈ g.edges, e.dst = n.id → (st1.node e.src).out = (st2.node e.src).out) :
    nodeEval g env st1 n = nodeEval g env st2 n := by
  unfold nodeEval
  cases n.task
  · rfl
  · rw [resolveArgs_congr h, resolveKw_congr h]

theorem deadPred_false {g : Graph} {st : DState} (hwf : WellFormed g)
    (h : ∀ n ∈ g.nodes, (st.node n.id).status ≠ Status.failed ∧
         (st.node n.id).status ≠ Status.cancelled) (i : Nat) :
    deadPred g st i = false := by
  rw [Bool.eq_false_iff]
  intro hd
  unfold deadPred at hd
  rw [List.any_eq_true] at hd
  obtain ⟨e, he, hb⟩ := hd
  obtain ⟨heedge, _⟩ := mem_predEdges he
  obtain ⟨n', hn', hid⟩ := List.mem_map.mp ((hwf.2 e heedge).1)
  have hne := h n' hn'
  rw [hid] at hne
  simp only [Bool.or_eq_true, decide_eq_true_eq] at hb
  rcases hb with hb | hb
  · exact hne.1 hb
  · exact hne.2 hb

theorem allPreds_mono {g : Graph} {st st' : DState}
    (hcomp : ∀ j, (st.node j).status = Status.completed → st'.node j = st.node j)
    {i : Nat} (h : allPredsCompleted g st i = true) :
    allPredsCompleted g st' i = true := by
  unfold allPredsCompleted at h ⊢
  rw [List.all_eq_true] at h ⊢
  intro e he
  have hc : (st.node e.src).status = Status.completed := by
    have := h e he
    simpa using this
  rw [hcomp e.src hc, hc]
  simp

theorem preds_completed_of_all {g : Graph} {st : DState} {i : Nat}
    (h : allPredsCompleted g st i = true) :
    ∀ e ∈ g.edges, e.dst = i → (st.node e.src).status = Status.completed := by
  intro e he hd
  unfold allPredsCompleted at h
  rw [List.all_eq_true] at h
  have := h e (List.mem_filter.mpr ⟨he, by simp [hd]⟩)
  simpa using this

theorem succ_submit {g : Graph} {env : Env} {st : DState} (hwf : WellFormed g)
    (hinv : SuccInv g env st) : SuccInv g env (submitPhase g st) := by
  obtain ⟨hc, hrest⟩ := hinv
  have hnofc : ∀ n ∈ g.nodes, (st.node n.id).status ≠ Status.failed ∧
      (st.node n.id).status ≠ Status.cancelled :=
    fun n hn => ⟨(hrest n hn).2.1, (hrest n hn).2.2.1⟩
  have hdead := deadPred_false hwf hnofc
  have hcomp : ∀ j, (st.node j).status = Status.completed →
      (submitPhase g st).node j = st.node j :=
    fun j hj => submitPhase_terminal (by rw [hj]; rfl)
  have houts : ∀ j, ((submitPhase g st).node j).out = (st.node j).out :=
    submitPhase_out g st
  refine ⟨hc, ?_⟩
  intro n hn
  have hni : n.id ∈ g.ids := List.mem_map.mpr ⟨n, hn, rfl⟩
  have hnode : (submitPhase g st).node n.id = stepSubmit g st n.id := by
    rw [submitPhase_node]
    simp [hni]
  obtain ⟨hruncomp, hnf, hnc, heqn⟩ := hrest n hn
  have hcfalse : ¬st.cancel = true := by rw [hc]; simp
  cases hs : (st.node n.id).status with
  | pending =>
      by_cases hall : allPredsCompleted g st n.id = true
      · have hval : (submitPhase g st).node n.id =
            { st.node n.id with status := Status.running } := by
          rw [hnode]
          unfold stepSubmit
          simp [hs, hcfalse, hdead, hall]
        refine ⟨fun _ => allPreds_mono hcomp hall, ?_, ?_, ?_⟩
        · rw [hval]
          simp
        · rw [hval]
          simp
        · rw [hval]
          intro hcon
          simp at hcon
      · have hval : (submitPhase g st).node n.id = st.node n.id := by
          rw [hnode]
          unfold stepSubmit
          simp [hs, hcfalse, hdead, hall]
        rw [hval]
        refine ⟨?_, hnf, hnc, ?_⟩
        · intro hor
          rw [hs] at hor
          rcases hor with hor | hor <;> simp at hor
        · intro h2
          rw [hs] at h2
          simp at h2
  | running =>
      have hval : (submitPhase g st).node n.id = st.node n.id := by
        rw [hnode]
        unfold stepSubmit
        simp only [hs]
      rw [hval]
      refine ⟨fun _ => allPreds_mono hcomp (hruncomp (Or.inl hs)), hnf, hnc, ?_⟩
      intro h2
      rw [hs] at h2
      simp at h2
  | completed =>
      have hval := hcomp n.id hs
      rw [hval]
      refine ⟨fun _ => allPreds_mono hcomp (hruncomp (Or.inr hs)), hnf, hnc, ?_⟩
      intro _
      rw [heqn hs]
      exact nodeEval_congr (fun e _ _ => (houts e.src).symm)
  | failed => exact absurd hs hnf
  | cancelled => exact absurd hs hnc

theorem succ_resolve {g : Graph} {env : Env} {honors : String → Bool} {st : DState}
    (hwf : WellFormed g)
    (htotal : ∀ ref args kw, (env ref args kw).isSome = true)
    (hinv : SuccInv g env st) : SuccInv g env (resolvePhase g env honors st) := by
  obtain ⟨hc, hrest⟩ := hinv
  have hcompkeep : ∀ j, (st.node j).status = Status.completed →
      (resolvePhase g env honors st).node j = st.node j :=
    fun j hj => resolvePhase_terminal (by rw [hj]; rfl)
  refine ⟨hc, ?_⟩
  intro n hn
  obtain ⟨hruncomp, hnf, hnc, heqn⟩ := hrest n hn
  have hfind := find_self hwf.1 hn
  have hnode : (resolvePhase g env honors st).node n.id = stepResolve g env honors st n :=
    resolvePhase_node_some g env honors st n.id n hfind
  cases hs : (st.node n.id).status with
  | running =>
      have hallold : allPredsCompleted g st n.id = true := hruncomp (Or.inl hs)
      have hpredout : ∀ e ∈ g.edges, e.dst = n.id →
          ((resolvePhase g env honors st).node e.src).out = (st.node e.src).out := by
        intro e he hd
        rw [hcompkeep e.src (preds_completed_of_all hallold e he hd)]
      have hcond : (st.cancel && honors n.executor) = false := by
        rw [hc]
        rfl
      cases htask : n.task with
      | none =>
          have hval : (resolvePhase g env honors st).node n.id =
              { status := Status.completed, out := n.param } := by
            rw [hnode]
            unfold stepResolve
            simp [hs, hcond, htask]
          refine ⟨fun _ => allPreds_mono hcompkeep hallold, ?_, ?_, ?_⟩
          · rw [hval]
            simp
          · rw [hval]
            simp
          · intro _
            rw [hval]
            show n.param = nodeEval g env (resolvePhase g env honors st) n
            unfold nodeEval
            rw [htask]
      | some ref =>
          obtain ⟨v, hv⟩ := Option.isSome_iff_exists.mp
            (htotal ref (resolveArgs g st n.id) (resolveKw g st n.id))
          have hval : (resolvePhase g env honors st).node n.id =
              { status := Status.completed, out := some v } := by
            rw [hnode]
            unfold stepResolve
            simp [hs, hcond, htask, hv]
          refine ⟨fun _ => allPreds_mono hcompkeep hallold, ?_, ?_, ?_⟩
          · rw [hval]
            simp
          · rw [hval]
            simp
          · intro _
            rw [hval]
            show some v = nodeEval g env (resolvePhase g env honors st) n
            rw [nodeEval_congr (fun e he hd => hpredout e he hd)]
            unfold nodeEval
            rw [htask]
            show some v = env ref (resolveArgs g st n.id) (resolveKw g st n.id)
            rw [hv]
  | completed =>
      have hallold : allPredsCompleted g st n.id = true := hruncomp (Or.inr hs)
      have hval := hcompkeep n.id hs
      rw [hval]
      refine ⟨fun _ => allPreds_mono hcompkeep hallold, hnf, hnc, ?_⟩
      intro _
      rw [heqn hs]
      apply nodeEval_congr
      intro e he hd
      rw [hcompkeep e.src (preds_completed_of_all hallold e he hd)]
  | pending =>
      have hval : (resolvePhase g env honors st).node n.id = st.node n.id := by
        rw [hnode]
        exact stepResolve_other (by rw [hs]; simp)
      rw [hval]
      refine ⟨?_, hnf, hnc, ?_⟩
      · intro hor
        rw [hs] at hor
        rcases hor with hor | hor <;> simp at hor
      · intro h2
        rw [hs] at h2
        simp at h2
  | failed => exact absurd hs hnf
  | cancelled => exact absurd hs hnc

theorem succ_init (g : Graph) (env : Env) : SuccInv g env initState := by
  refine ⟨rfl, ?_⟩
  intro n _
  refine ⟨?_, by simp [initState], by simp [initState], ?_⟩
  · intro hor
    rcases hor with hor | hor <;> simp [initState] at hor
  · intro h2
    simp [initState] at h2

theorem succ_runRounds {g : Graph} {env : Env} (honors : String → Bool) {st : DState}
    (hwf : WellFormed g)
    (htotal : ∀ ref args kw, (env ref args kw).isSome = true)
    (hinv : SuccInv g env st) :
    ∀ k, SuccInv g env (runRounds g env honors k st) := by
  intro k
  induction k with
  | zero => exact hinv
  | succ k ih =>
      show SuccInv g env (round g env honors (runRounds g env honors k st))
      exact succ_resolve hwf htotal (succ_submit hwf ih)

theorem all_completed_after {g : Graph} {env : Env} (honors : String → Bool)
    {m : Nat → Nat} {b : Nat} (hwf : WellFormed g) (hm : HeightFn g m)
    (hb : HeightBound g m b)
    (htotal : ∀ ref args kw, (env ref args kw).isSome = true) :
    ∀ n ∈ g.nodes,
      ((runRounds g env honors b initState).node n.id).status = Status.completed := by
  intro n hn
  have hterm := node_terminal_after g env honors m hwf hm initState b n.id
    (List.mem_map.mpr ⟨n, hn, rfl⟩) (hb n hn)
  have hinv := succ_runRounds honors hwf htotal
    (succ_init g env) b
  obtain ⟨_, hrest⟩ := hinv
  obtain ⟨_, hnf, hnc, _⟩ := hrest n hn
  cases hs : ((runRounds g env honors b initState).node n.id).status with
  | pending => rw [hs] at hterm; simp [isTerminal] at hterm
  | running => rw [hs] at hterm; simp [isTerminal] at hterm
  | completed => rfl
  | failed => exact absurd hs hnf
  | cancelled => exact absurd hs hnc

theorem wf_dropWait {g : Graph} (hwf : WellFormed g) : WellFormed (dropWait g) := by
  constructor
  · exact hwf.1
  · intro e he
    exact hwf.2 e (List.mem_of_mem_filter he)

theorem run_dropWait_eq (g : Graph) (env : Env) (honors : String → Bool)
    (m : Nat → Nat) (b : Nat) (hwf : WellFormed g) (hm : HeightFn g m)
    (hb : HeightBound g m b)
    (htotal : ∀ ref args kw, (env ref args kw).isSome = true) :
    ∀ i, (runRounds g env honors b initState).node i =
         (runRounds (dropWait g) env honors b initState).node i := by
  have hwf' : WellFormed (dropWait g) := wf_dropWait hwf
  have hm' : HeightFn (dropWait g) m := fun e he => hm e (List.mem_of_mem_filter he)
  have hb' : HeightBound (dropWait g) m b := hb
  have hinvA := succ_runRounds honors hwf htotal
    (succ_init g env) b
  have hinvB := succ_runRounds honors hwf' htotal
    (succ_init (dropWait g) env) b
  have hcompA := all_completed_after honors hwf hm hb htotal
  have hcompB := all_completed_after honors hwf' hm' hb' htotal
  have hmain : ∀ d i, i ∈ g.ids → m i < d →
      (runRounds g env honors b initState).node i =
      (runRounds (dropWait g) env honors b initState).node i := by
    intro d
    induction d with
    | zero => intro i _ h; omega
    | succ d ih =>
        intro i hi hlt
        obtain ⟨n, hn, hid⟩ := List.mem_map.mp hi
        have hsa : ((runRounds g env honors b initState).node n.id).status =
            Status.completed := hcompA n hn
        have hsb : ((runRounds (dropWait g) env honors b initState).node n.id).status =
            Status.completed := hcompB n hn
        have heqA : ((runRounds g env honors b initState).node n.id).out =
            nodeEval g env (runRounds g env honors b initState) n := by
          obtain ⟨_, hrest⟩ := hinvA
          exact (hrest n hn).2.2.2 hsa
        have heqB : ((runRounds (dropWait g) env honors b initState).node n.id).out =
            nodeEval (dropWait g) env (runRounds (dropWait g) env honors b initState)
              n := by
          obtain ⟨_, hrest⟩ := hinvB
          exact (hrest n hn).2.2.2 hsb
        have houteq : nodeEval g env (runRounds g env honors b initState) n =
            nodeEval g env (runRounds (dropWait g) env honors b initState) n := by
          apply nodeEval_congr
          intro e he hd
          have hsrc : e.src ∈ g.ids := (hwf.2 e he).1
          have hlt2 : m e.src < d := by
            have h3 := hm e he
            rw [hd, hid] at h3
            omega
          rw [ih e.src hsrc hlt2]
        rw [← hid]
        apply nodeState_ext
        · rw [hsa, hsb]
        · rw [heqA, heqB, nodeEval_dropWait, houteq]
  intro i
  by_cases hi : i ∈ g.ids
  · exact hmain (m i + 1) i hi (by omega)
  · rw [runRounds_outside hi b, runRounds_outside (show i ∉ (dropWait g).ids from hi) b]

/-- C2: a wait-only edge enforces ordering without feeding a value — a node
moves from `PENDING` to `RUNNING` only when every wait-only source is
`COMPLETED`; the resolved positional and keyword arguments are the same with
or without the wait-only edges, so the wait-only source's output never
appears among them; and (for executor environments that never fail) every
node of the run ends `COMPLETED` with exactly the state it reaches in the
graph with all wait-only edges removed. -/
theorem claim2_wait_only_edges (g : Graph) (env : Env) (honors : String → Bool)
    (m : Nat → Nat) (b : Nat) (hwf : WellFormed g) (hm : HeightFn g m)
    (hb : HeightBound g m b) :
    (∀ (st : DState) (n : Node), n ∈ g.nodes →
       (st.node n.id).status = Status.pending →
       ((submitPhase g st).node n.id).status = Status.running →
       ∀ e ∈ g.edges, e.kind = EdgeKind.waitOnly → e.dst = n.id →
         (st.node e.src).status = Status.completed) ∧
    (∀ (st : DState) (i : Nat),
       resolveArgs (dropWait g) st i = resolveArgs g st i ∧
       resolveKw (dropWait g) st i = resolveKw g st i) ∧
    ((∀ ref args kw, (env ref args kw).isSome = true) →
      ∀ i, (runRounds g env honors b initState).node i =
           (runRounds (dropWait g) env honors b initState).node i ∧
           (i ∈ g.ids →
             ((runRounds g env honors b initState).node i).status =
               Status.completed)) := by
  refine ⟨?_, ?_, ?_⟩
  · intro st n hn hp hr e he hkind hdst
    have hni : n.id ∈ g.ids := List.mem_map.mpr ⟨n, hn, rfl⟩
    have hnode : (submitPhase g st).node n.id = stepSubmit g st n.id := by
      rw [submitPhase_node]
      simp [hni]
    rw [hnode] at hr
    unfold stepSubmit at hr
    simp only [hp] at hr
    split_ifs at hr with h1 h2 h3
    · exact preds_completed_of_all h3 e he hdst
    · rw [hp] at hr
      simp at hr
  · intro st i
    exact ⟨resolveArgs_dropWait g st i, resolveKw_dropWait g st i⟩
  · intro htotal i
    refine ⟨run_dropWait_eq g env honors m b hwf hm hb htotal i, ?_⟩
    intro hi
    obtain ⟨n, hn, hid⟩ := List.mem_map.mp hi
    rw [← hid]
    exact all_completed_after honors hwf hm hb htotal n hn

theorem claim2_witness :
    WellFormed scenarioGraph ∧
    (runRounds scenarioGraph scenarioEnvTotal scenarioHonors 4 initState).node 4 =
      (runRounds (dropWait scenarioGraph) scenarioEnvTotal scenarioHonors 4
        initState).node 4 ∧
    ((runRounds scenarioGraph scenarioEnvTotal scenarioHonors 4 initState).node
      4).status = Status.completed :=
  have h := (claim2_wait_only_edges scenarioGraph scenarioEnvTotal scenarioHonors
      scenarioHeights 4 (by decide) (by decide) (by decide)).2.2
    (fun _ _ _ => rfl) 4
  ⟨by decide, h.1, h.2 (by decide)⟩

end Covalent




